import Mathlib

/-!
Verification of the mask-generation engine of the particle-wipe generator
(`script.js`): cell-order pattern generators, order-transforming wrappers,
the growth-profile (stamp) builder, and the mask compositor.

The JavaScript source computes with IEEE doubles; the embedding models the
numeric values exactly, in a linear ordered field with a floor function
(instantiated at `ℚ` for the integer-step generators and at `ℝ` for the
spiral generator and the growth-profile builder, whose formulas involve
`Math.sqrt`, `Math.atan2` and `π`).  `Math.floor` is modelled by `Int.floor`,
and the JavaScript remainder operator `%` (truncated division remainder) by
`jsMod` below.  Divisions whose divisor can be zero in the source are the
one point where exact fields and IEEE semantics part ways (IEEE produces
`NaN`/`Infinity`); the theorems below make any such divisor explicit.
-/

section Helpers

variable {α : Type*} [LinearOrderedField α] [FloorRing α]

/-- Truncation toward zero, the rounding used by the JavaScript `%` operator. -/
def jsTrunc (x : α) : ℤ := if 0 ≤ x then ⌊x⌋ else -⌊-x⌋

/-- The JavaScript remainder operator `x % y` (sign follows the dividend). -/
def jsMod (x y : α) : α := x - y * (jsTrunc (x / y) : α)

theorem jsTrunc_of_nonneg {x : α} (h : 0 ≤ x) : jsTrunc x = ⌊x⌋ := if_pos h

theorem jsTrunc_intCast (k : ℤ) : jsTrunc (k : α) = k := by
  unfold jsTrunc
  split
  · exact Int.floor_intCast k
  · rw [← Int.cast_neg, Int.floor_intCast, neg_neg]

theorem jsMod_nonneg_lt {x y : α} (hx : 0 ≤ x) (hy : 0 < y) :
    0 ≤ jsMod x y ∧ jsMod x y < y := by
  have hq : 0 ≤ x / y := div_nonneg hx hy.le
  have h1 : (⌊x / y⌋ : α) ≤ x / y := Int.floor_le _
  have h2 : x / y < ⌊x / y⌋ + 1 := Int.lt_floor_add_one _
  rw [jsMod, jsTrunc_of_nonneg hq]
  constructor
  · have := mul_le_mul_of_nonneg_left h1 hy.le
    rw [mul_div_cancel₀ _ hy.ne.symm] at this
    linarith
  · have := mul_lt_mul_of_pos_left h2 hy
    rw [mul_div_cancel₀ _ hy.ne.symm] at this
    linarith

theorem jsMod_nonneg {x y : α} (hx : 0 ≤ x) (hy : 0 < y) : 0 ≤ jsMod x y :=
  (jsMod_nonneg_lt hx hy).1

/-- `k % s` for a nonnegative integer cast dividend equals the Euclidean
remainder, given the decomposition `k = s * q + j` with `0 ≤ j < s`. -/
theorem jsMod_intCast_of_decomp {k s q j : ℤ} (hk0 : 0 ≤ k) (hs : 0 < s)
    (hk : k = s * q + j) (hj0 : 0 ≤ j) (hjs : j < s) :
    jsMod (k : α) (s : α) = (j : α) := by
  have hs0 : (0 : α) < (s : α) := by exact_mod_cast hs
  have hdiv : (k : α) / (s : α) = (q : α) + (j : α) / (s : α) := by
    field_simp
    push_cast [hk]
    ring
  have hfl : ⌊(k : α) / (s : α)⌋ = q := by
    rw [hdiv, Int.floor_eq_iff]
    constructor
    · have : (0 : α) ≤ (j : α) / (s : α) := by
        apply div_nonneg _ hs0.le
        exact_mod_cast hj0
      linarith
    · have : (j : α) / (s : α) < 1 := by
        rw [div_lt_one hs0]
        exact_mod_cast hjs
      linarith
  have hnn : 0 ≤ (k : α) / (s : α) :=
    div_nonneg (by exact_mod_cast hk0) hs0.le
  rw [jsMod, jsTrunc_of_nonneg hnn, hfl]
  push_cast [hk]
  ring

end Helpers

section ListHelpers

variable {α : Type*} [LinearOrderedField α]

/-- `Math.min(...list)` over a nonempty list, with junk value 0 on `[]`. -/
def listMin : List α → α
  | [] => 0
  | x :: xs => xs.foldl min x

theorem foldl_min_le_init (xs : List α) (a : α) : xs.foldl min a ≤ a := by
  induction xs generalizing a with
  | nil => exact le_refl a
  | cons y ys ih => exact le_trans (ih (min a y)) (min_le_left a y)

theorem foldl_min_le_mem {xs : List α} {x : α} (hx : x ∈ xs) (a : α) :
    xs.foldl min a ≤ x := by
  induction xs generalizing a with
  | nil => cases hx
  | cons y ys ih =>
    rcases List.mem_cons.mp hx with rfl | hmem
    · exact le_trans (foldl_min_le_init ys (min a x)) (min_le_right a x)
    · exact ih hmem (min a y)

theorem le_foldl_min {xs : List α} {a b : α} (ha : b ≤ a) (h : ∀ x ∈ xs, b ≤ x) :
    b ≤ xs.foldl min a := by
  induction xs generalizing a with
  | nil => exact ha
  | cons y ys ih =>
    exact ih (le_min ha (h y (List.mem_cons_self y ys)))
      (fun x hx => h x (List.mem_cons_of_mem y hx))

theorem listMin_le_mem {xs : List α} {x : α} (hx : x ∈ xs) : listMin xs ≤ x := by
  cases xs with
  | nil => cases hx
  | cons y ys =>
    rcases List.mem_cons.mp hx with rfl | hmem
    · exact foldl_min_le_init ys x
    · exact foldl_min_le_mem hmem y

theorem le_listMin {xs : List α} {b : α} (hne : xs ≠ []) (h : ∀ x ∈ xs, b ≤ x) :
    b ≤ listMin xs := by
  cases xs with
  | nil => exact absurd rfl hne
  | cons y ys =>
    exact le_foldl_min (h y (List.mem_cons_self y ys))
      (fun x hx => h x (List.mem_cons_of_mem y hx))

theorem foldl_max_of_le {xs : List α} {b : α} (hall : ∀ x ∈ xs, x ≤ b) :
    xs.foldl max b = b := by
  induction xs with
  | nil => rfl
  | cons y ys ih =>
    have hy : y ≤ b := hall y (List.mem_cons_self y ys)
    simp only [List.foldl_cons, max_eq_left hy]
    exact ih (fun x hx => hall x (List.mem_cons_of_mem y hx))

/-- `Math.max` folded over a list (used for the stamp's `max_scale`). -/
theorem foldl_max_eq {xs : List α} {b a : α} (hmem : b ∈ xs) (hab : a ≤ b)
    (hall : ∀ x ∈ xs, x ≤ b) : xs.foldl max a = b := by
  induction xs generalizing a with
  | nil => cases hmem
  | cons y ys ih =>
    simp only [List.foldl_cons]
    rcases List.mem_cons.mp hmem with rfl | hmem'
    · rw [max_eq_right hab]
      exact foldl_max_of_le (fun x hx => hall x (List.mem_cons_of_mem b hx))
    · exact ih hmem' (max_le hab (hall y (List.mem_cons_self y ys)))
        (fun x hx => hall x (List.mem_cons_of_mem y hx))

end ListHelpers

/-! ## Cell-order engine: pattern generators and wrappers (script.js 569-1003) -/

section CellOrder

variable {α : Type*} [LinearOrderedField α] [FloorRing α]

/-- A pattern generator: grid dimensions plus the two operations of the
`PatternGenerator` contract, `cell(r, c)` and `max_step`.  Step values are
numbers (`α`): integers for every generator except the spiral, which
produces real-valued steps. -/
structure Pattern (α : Type*) where
  row_ct : ℕ
  column_ct : ℕ
  cell : ℤ → ℤ → α
  max_step : α

/-- `RowPattern`: `cell(r, c) = r + offsets[c + 1]` with per-column droop
offsets `Math.floor(Math.random() * range)`, `range = Math.ceil(droop * row_ct)`.
The ambient `Math.random()` draws are modelled by the oracle `rand` (one
value in `[0, 1)` per offset index). -/
def RowPattern (row_ct column_ct : ℕ) (droop : α) (rand : ℤ → α) : Pattern α :=
  { row_ct := row_ct
    column_ct := column_ct
    cell := fun r c =>
      (r : α) + ((⌊rand (c + 1) * ((⌈droop * (row_ct : α)⌉ : ℤ) : α)⌋ : ℤ) : α)
    max_step := (row_ct : α) - 1 + ((⌈droop * (row_ct : α)⌉ : ℤ) : α) }

/-- `ColumnPattern`: mirror image of `RowPattern` along the other axis. -/
def ColumnPattern (row_ct column_ct : ℕ) (droop : α) (rand : ℤ → α) : Pattern α :=
  { row_ct := row_ct
    column_ct := column_ct
    cell := fun r c =>
      (c : α) + ((⌊rand (r + 1) * ((⌈droop * (column_ct : α)⌉ : ℤ) : α)⌋ : ℤ) : α)
    max_step := (column_ct : α) - 1 + ((⌈droop * (column_ct : α)⌉ : ℤ) : α) }

/-- `DiagonalPattern`: `cell(r, c) = r + c`. -/
def DiagonalPattern (row_ct column_ct : ℕ) : Pattern α :=
  { row_ct := row_ct
    column_ct := column_ct
    cell := fun r c => (r : α) + (c : α)
    max_step := (row_ct : α) - 1 + (column_ct : α) - 1 }

/-- `reflect(n, count)`: distance from the nearest edge (script.js 648-656). -/
def reflect (n count : α) : α := if n < count / 2 then n else count - 1 - n

/-- `reflect_max(count) = Math.floor(count / 2 - 0.5)` (script.js 659-661). -/
def reflect_max (count : α) : α := ((⌊count / 2 - 1 / 2⌋ : ℤ) : α)

/-- `RowCurtainPattern`: `cell(r, c) = r + reflect(c, column_ct)`. -/
def RowCurtainPattern (row_ct column_ct : ℕ) : Pattern α :=
  { row_ct := row_ct
    column_ct := column_ct
    cell := fun r c => (r : α) + reflect (c : α) (column_ct : α)
    max_step := (row_ct : α) - 1 + reflect_max (column_ct : α) }

/-- `ColumnCurtainPattern`: `cell(r, c) = c + reflect(r, row_ct)`. -/
def ColumnCurtainPattern (row_ct column_ct : ℕ) : Pattern α :=
  { row_ct := row_ct
    column_ct := column_ct
    cell := fun r c => (c : α) + reflect (r : α) (row_ct : α)
    max_step := (column_ct : α) - 1 + reflect_max (row_ct : α) }

/-- `DiagonalCurtainPattern`: `cell(r, c) = Math.min(r, c)`. -/
def DiagonalCurtainPattern (row_ct column_ct : ℕ) : Pattern α :=
  { row_ct := row_ct
    column_ct := column_ct
    cell := fun r c => min (r : α) (c : α)
    max_step := min (row_ct : α) (column_ct : α) - 1 }

/-- `RowShutterPattern`: `cell(r, c) = reflect(r, row_ct)`. -/
def RowShutterPattern (row_ct column_ct : ℕ) : Pattern α :=
  { row_ct := row_ct
    column_ct := column_ct
    cell := fun r _ => reflect (r : α) (row_ct : α)
    max_step := reflect_max (row_ct : α) }

/-- `ColumnShutterPattern`: `cell(r, c) = reflect(c, column_ct)`. -/
def ColumnShutterPattern (row_ct column_ct : ℕ) : Pattern α :=
  { row_ct := row_ct
    column_ct := column_ct
    cell := fun _ c => reflect (c : α) (column_ct : α)
    max_step := reflect_max (column_ct : α) }

/-- `MainDiagonalShutterPattern`: `cell(r, c) = reflect(r + c, row_ct + column_ct)`. -/
def MainDiagonalShutterPattern (row_ct column_ct : ℕ) : Pattern α :=
  { row_ct := row_ct
    column_ct := column_ct
    cell := fun r c => reflect ((r : α) + (c : α)) ((row_ct : α) + (column_ct : α))
    max_step := reflect_max ((row_ct : α) + (column_ct : α)) }

/-- `DiamondPattern`: sum of reflects on both axes. -/
def DiamondPattern (row_ct column_ct : ℕ) : Pattern α :=
  { row_ct := row_ct
    column_ct := column_ct
    cell := fun r c => reflect (r : α) (row_ct : α) + reflect (c : α) (column_ct : α)
    max_step := reflect_max (row_ct : α) + reflect_max (column_ct : α) }

/-- `BoxPattern`: min of reflects on both axes. -/
def BoxPattern (row_ct column_ct : ℕ) : Pattern α :=
  { row_ct := row_ct
    column_ct := column_ct
    cell := fun r c => min (reflect (r : α) (row_ct : α)) (reflect (c : α) (column_ct : α))
    max_step := min (reflect_max (row_ct : α)) (reflect_max (column_ct : α)) }

/-- `RandomPattern` (script.js 851-874): `_get_max_step()` returns the
hard-coded constant `16`; the constructor reads `const range = this.max_step`
(which caches `16`) and fills a `(row_ct + 2) × (column_ct + 2)` table with
`Math.floor(Math.random() * range)`.  `cell(r, c)` reads `cells[r+1][c+1]`;
the `Math.random()` draws are modelled by the oracle `rand`, indexed by the
table position. -/
def randomPatternFixedRange : ℕ := 16

def RandomPattern (row_ct column_ct : ℕ) (rand : ℤ → ℤ → α) : Pattern α :=
  { row_ct := row_ct
    column_ct := column_ct
    cell := fun r c =>
      ((⌊rand (r + 1) (c + 1) * (randomPatternFixedRange : α)⌋ : ℤ) : α)
    max_step := (randomPatternFixedRange : α) }

/-- `PatternInterlaced` (script.js 958-979).  `this.max_step` is copied from
the wrapped generator by the `PatternWrapper` base constructor. -/
def PatternInterlaced (p : Pattern α) (stride : ℕ) : Pattern α :=
  { row_ct := p.row_ct
    column_ct := p.column_ct
    max_step := p.max_step
    cell := fun r c =>
      ((⌊p.cell r c / (stride : α)⌋ : ℤ) : α)
      + ((⌊p.max_step / (stride : α)⌋ : ℤ) : α) * jsMod (p.cell r c) (stride : α)
      + min (jsMod (p.cell r c) (stride : α)) (jsMod (p.max_step + 1) (stride : α)) }

/-- `PatternReversed` (script.js 980-984): `cell(r, c) = max_step - wrapped.cell(r, c)`. -/
def PatternReversed (p : Pattern α) : Pattern α :=
  { row_ct := p.row_ct
    column_ct := p.column_ct
    max_step := p.max_step
    cell := fun r c => p.max_step - p.cell r c }

/-- `PatternMirrored` (script.js 985-989): swap columns. -/
def PatternMirrored (p : Pattern α) : Pattern α :=
  { row_ct := p.row_ct
    column_ct := p.column_ct
    max_step := p.max_step
    cell := fun r c => p.cell r ((p.column_ct : ℤ) - c - 1) }

/-- `PatternFlipped` (script.js 990-994): swap rows. -/
def PatternFlipped (p : Pattern α) : Pattern α :=
  { row_ct := p.row_ct
    column_ct := p.column_ct
    max_step := p.max_step
    cell := fun r c => p.cell ((p.row_ct : ℤ) - r - 1) c }

/-- `PatternReflected` (script.js 995-1003): recomputes
`max_step = reflect_max(wrapped.max_step + 1)` and applies
`reflect(wrapped.cell(r, c), wrapped.max_step + 1)`. -/
def PatternReflected (p : Pattern α) : Pattern α :=
  { row_ct := p.row_ct
    column_ct := p.column_ct
    max_step := reflect_max (p.max_step + 1)
    cell := fun r c => reflect (p.cell r c) (p.max_step + 1) }

/-- The five order wrappers as a closed type, so that arbitrary compositions
can be quantified over as lists. -/
inductive Wrapper where
  | interlaced (stride : ℕ)
  | reversed
  | mirrored
  | flipped
  | reflected
deriving DecidableEq

def applyWrapper (w : Wrapper) (p : Pattern α) : Pattern α :=
  match w with
  | .interlaced s => PatternInterlaced p s
  | .reversed => PatternReversed p
  | .mirrored => PatternMirrored p
  | .flipped => PatternFlipped p
  | .reflected => PatternReflected p

/-- Apply a composition of wrappers, innermost first. -/
def applyWrappers : List Wrapper → Pattern α → Pattern α
  | [], p => p
  | w :: ws, p => applyWrappers ws (applyWrapper w p)

/-- Strides of interlace wrappers must be at least 1 (the UI control ranges
over 1-8; `stride = 0` would divide by zero in the source). -/
def Wrapper.strideOK : Wrapper → Prop
  | .interlaced s => 1 ≤ s
  | _ => True

instance : DecidablePred Wrapper.strideOK := by
  intro w
  cases w <;> simp [Wrapper.strideOK] <;> infer_instance

end CellOrder

/-! ## Claim C8: Reversed is an involution against the base step -/

/-- C8: For every base generator `G` and every cell `(r, c)`,
`PatternReversed(G).cell(r, c) + G.cell(r, c) == G.max_step`.  `PatternReversed`
copies `max_step` from the wrapped generator and returns
`max_step - wrapped.cell(r, c)`, so the sum telescopes for all cells,
including the border ring and real-valued (spiral) steps. -/
theorem C8_reversed_cell_add_cell {α : Type*} [LinearOrderedField α] [FloorRing α]
    (p : Pattern α) (r c : ℤ) :
    (PatternReversed p).cell r c + p.cell r c = p.max_step := by
  simp [PatternReversed]

/-! ## Claim C9: RowPattern with droop 0 -/

/-- C9: For every grid size and droop = 0, `RowPattern.cell(r, c) == r` for
every in-grid cell and `max_step == rows - 1`.  With droop 0 the offset range
`Math.ceil(0 * row_ct)` is 0, so every random offset `Math.floor(rand * 0)`
collapses to 0. -/
theorem C9_row_pattern_droop_zero {α : Type*} [LinearOrderedField α] [FloorRing α]
    (row_ct column_ct : ℕ) (rand : ℤ → α) :
    (∀ r c : ℤ, 0 ≤ r → r < row_ct → 0 ≤ c → c < column_ct →
      (RowPattern row_ct column_ct (0 : α) rand).cell r c = r) ∧
    (RowPattern row_ct column_ct (0 : α) rand).max_step = (row_ct : α) - 1 := by
  constructor
  · intro r c _ _ _ _
    simp [RowPattern]
  · simp [RowPattern]

/-- Witness for C9 at a concrete grid. -/
theorem C9_witness :
    (RowPattern 2 3 (0 : ℚ) (fun _ => 1 / 2)).cell 1 2 = (1 : ℚ) ∧
    (RowPattern 2 3 (0 : ℚ) (fun _ => 1 / 2)).max_step = (1 : ℚ) := by
  refine ⟨(C9_row_pattern_droop_zero 2 3 (fun _ => 1 / 2)).1 1 2 (by norm_num)
    (by norm_num) (by norm_num) (by norm_num), ?_⟩
  have h := (C9_row_pattern_droop_zero (α := ℚ) 2 3 (fun _ => 1 / 2)).2
  rw [h]
  norm_num

/-! ## Step invariant: integer steps within `[0, max_step]` -/

section StepInvariant

variable {α : Type*} [LinearOrderedField α] [FloorRing α]

/-- The invariant shared by all integer-step generators: `max_step` is a
nonnegative integer and every in-grid cell value is an integer in
`[0, max_step]`. -/
def StepInv (p : Pattern α) : Prop :=
  0 ≤ p.max_step ∧ (∃ m : ℤ, p.max_step = (m : α)) ∧
  ∀ r c : ℤ, 0 ≤ r → r < p.row_ct → 0 ≤ c → c < p.column_ct →
    (∃ k : ℤ, p.cell r c = (k : α)) ∧ 0 ≤ p.cell r c ∧ p.cell r c ≤ p.max_step

theorem floor_intCast_div_of_decomp {k s q j : ℤ} (hs : 0 < s)
    (hk : k = s * q + j) (hj0 : 0 ≤ j) (hjs : j < s) :
    ⌊(k : α) / (s : α)⌋ = q := by
  have hs0 : (0 : α) < (s : α) := by exact_mod_cast hs
  have hdiv : (k : α) / (s : α) = (q : α) + (j : α) / (s : α) := by
    field_simp
    push_cast [hk]
    ring
  rw [hdiv, Int.floor_eq_iff]
  constructor
  · have : (0 : α) ≤ (j : α) / (s : α) := by
      apply div_nonneg _ hs0.le
      exact_mod_cast hj0
    linarith
  · have : (j : α) / (s : α) < 1 := by
      rw [div_lt_one hs0]
      exact_mod_cast hjs
    linarith

/-- Core inequality behind the interlace wrapper: for integer steps
`0 ≤ k ≤ m` and stride `s ≥ 1`, the interlaced value stays within `[0, m]`.
Here `/` and `%` are Euclidean (the result of `Math.floor` division and the
JavaScript `%` on nonnegative operands). -/
theorem interlace_int_bounds (s k m : ℤ) (hs : 1 ≤ s) (h0 : 0 ≤ k) (hkm : k ≤ m) :
    0 ≤ k / s + (m / s) * (k % s) + min (k % s) ((m + 1) % s) ∧
    k / s + (m / s) * (k % s) + min (k % s) ((m + 1) % s) ≤ m := by
  have hs0 : 0 < s := by omega
  have hm0 : 0 ≤ m := le_trans h0 hkm
  have hkd : s * (k / s) + k % s = k := Int.ediv_add_emod k s
  have hmd : s * (m / s) + m % s = m := Int.ediv_add_emod m s
  have hj0 : 0 ≤ k % s := Int.emod_nonneg k (by omega)
  have hjs : k % s < s := Int.emod_lt_of_pos k hs0
  have hi0 : 0 ≤ m % s := Int.emod_nonneg m (by omega)
  have his : m % s < s := Int.emod_lt_of_pos m hs0
  have hq0 : 0 ≤ k / s := Int.ediv_nonneg h0 hs0.le
  have hu0 : 0 ≤ m / s := Int.ediv_nonneg hm0 hs0.le
  have hqu : k / s ≤ m / s := Int.ediv_le_ediv hs0 hkm
  set q := k / s with hq
  set j := k % s with hjj
  set u := m / s with hu
  set i := m % s with hii
  have hm1 : m + 1 = (i + 1) + s * u := by linarith [hmd]
  have hadd : (m + 1) % s = (i + 1) % s := by
    rw [hm1]
    exact Int.add_mul_emod_self_left (i + 1) s u
  constructor
  · have h1 : 0 ≤ u * j := mul_nonneg hu0 hj0
    have h2 : 0 ≤ min j ((m + 1) % s) := by
      have : 0 ≤ (m + 1) % s := Int.emod_nonneg _ (by omega)
      exact le_min hj0 this
    linarith
  by_cases hcase : i = s - 1
  · -- m % s = s - 1, so (m+1) % s = 0 and the min term vanishes
    have he : (m + 1) % s = 0 := by
      rw [hadd, hcase]
      simp
    rw [he, min_eq_right hj0]
    have h1 : u * j ≤ u * (s - 1) := mul_le_mul_of_nonneg_left (by omega) hu0
    have hr1 : u + u * (s - 1) = s * u := by ring
    linarith [hmd, hqu, hi0]
  · -- m % s < s - 1, so (m+1) % s = m % s + 1
    have he : (m + 1) % s = i + 1 := by
      rw [hadd]
      exact Int.emod_eq_of_lt (by omega) (by omega)
    rw [he]
    by_cases hji : j ≤ i
    · rw [min_eq_left (by omega)]
      have h1 : u * j ≤ u * i := mul_le_mul_of_nonneg_left hji hu0
      have h2 : u * (i + 1) ≤ u * s := mul_le_mul_of_nonneg_left (by omega) hu0
      have hr1 : u * (i + 1) = u * i + u := by ring
      have hr2 : u * s = s * u := by ring
      linarith [hmd, hqu]
    · rw [min_eq_right (by omega)]
      have hqlt : q < u := by
        rcases lt_or_eq_of_le hqu with h | h
        · exact h
        · exfalso
          have hsub : s * q = s * u := by rw [h]
          have : j ≤ i := by linarith [hkd, hmd, hkm]
          exact hji this
      have h1 : u * j ≤ u * (s - 1) := mul_le_mul_of_nonneg_left (by omega) hu0
      have hr1 : u * (s - 1) = u * s - u := by ring
      have hr2 : u * s = s * u := by ring
      linarith [hmd]

/-- The reflect of an integer in `[0, m]` against window `m + 1` is an
integer in `[0, reflect_max (m + 1)]`. -/
theorem reflect_intCast_bounds {k m : ℤ} (hk0 : 0 ≤ k) (hkm : k ≤ m) :
    ∃ v : ℤ, reflect (k : α) ((m : α) + 1) = (v : α) ∧ 0 ≤ v ∧
      (v : α) ≤ reflect_max ((m : α) + 1) := by
  have hhalf : ((m : α) + 1) / 2 - 1 / 2 = (m : α) / 2 := by ring
  have hrm : reflect_max ((m : α) + 1) = ((⌊(m : α) / 2⌋ : ℤ) : α) := by
    rw [reflect_max, hhalf]
  rw [reflect, hrm]
  by_cases hlt : (k : α) < ((m : α) + 1) / 2
  · refine ⟨k, by rw [if_pos hlt], hk0, ?_⟩
    have h2k : 2 * k ≤ m := by
      have h1 : (2 : α) * (k : α) < (m : α) + 1 := by
        have h := mul_lt_mul_of_pos_left hlt (by norm_num : (0 : α) < 2)
        calc (2 : α) * (k : α) < 2 * (((m : α) + 1) / 2) := h
        _ = (m : α) + 1 := by ring
      have h2 : ((2 * k : ℤ) : α) < ((m + 1 : ℤ) : α) := by push_cast; linarith
      have h3 : (2 * k : ℤ) < m + 1 := by exact_mod_cast h2
      omega
    have hle : (k : α) ≤ (m : α) / 2 := by
      have h4 : ((2 * k : ℤ) : α) ≤ ((m : ℤ) : α) := by exact_mod_cast h2k
      push_cast at h4
      linarith
    exact_mod_cast Int.le_floor.mpr hle
  · push_neg at hlt
    refine ⟨m - k, ?_, by omega, ?_⟩
    · rw [if_neg (not_lt.mpr hlt)]
      push_cast
      ring
    · have h2k : m + 1 ≤ 2 * k := by
        have h1 : (m : α) + 1 ≤ 2 * (k : α) := by
          calc (m : α) + 1 = 2 * (((m : α) + 1) / 2) := by ring
          _ ≤ 2 * (k : α) := mul_le_mul_of_nonneg_left hlt (by norm_num)
        have h2 : ((m + 1 : ℤ) : α) ≤ ((2 * k : ℤ) : α) := by push_cast; linarith
        exact_mod_cast h2
      have hle : ((m - k : ℤ) : α) ≤ (m : α) / 2 := by
        push_cast
        have h4 : (m : α) + 1 ≤ 2 * (k : α) := by
          have := h2k
          have h5 : ((m + 1 : ℤ) : α) ≤ ((2 * k : ℤ) : α) := by exact_mod_cast this
          push_cast at h5
          linarith
        linarith
      exact_mod_cast Int.le_floor.mpr hle

end StepInvariant

section Preservation

variable {α : Type*} [LinearOrderedField α] [FloorRing α]

/-- In-grid form of the reflect bound: `reflect(n, cnt)` for `0 ≤ n < cnt`. -/
theorem reflect_in_grid {n cnt : ℤ} (h0 : 0 ≤ n) (hn : n < cnt) :
    ∃ v : ℤ, reflect (n : α) (cnt : α) = (v : α) ∧ 0 ≤ v ∧
      (v : α) ≤ reflect_max (cnt : α) := by
  have hcast : (cnt : α) = ((cnt - 1 : ℤ) : α) + 1 := by push_cast; ring
  rw [hcast]
  exact reflect_intCast_bounds h0 (by omega)

theorem reflect_max_nonneg {cnt : ℤ} (h : 1 ≤ cnt) :
    0 ≤ reflect_max ((cnt : ℤ) : α) := by
  rw [reflect_max]
  have : (0 : ℤ) ≤ ⌊(cnt : α) / 2 - 1 / 2⌋ := by
    apply Int.le_floor.mpr
    have : (1 : α) ≤ (cnt : α) := by exact_mod_cast h
    push_cast
    linarith
  exact_mod_cast this

theorem reflect_max_intCast (cnt : ℤ) :
    ∃ v : ℤ, reflect_max ((cnt : ℤ) : α) = (v : α) :=
  ⟨⌊(cnt : α) / 2 - 1 / 2⌋, rfl⟩

theorem stepInv_interlaced {p : Pattern α} {s : ℕ} (hp : StepInv p) (hs : 1 ≤ s) :
    StepInv (PatternInterlaced p s) := by
  obtain ⟨hms0, ⟨m, hm⟩, hcells⟩ := hp
  refine ⟨hms0, ⟨m, hm⟩, ?_⟩
  intro r c hr0 hr1 hc0 hc1
  obtain ⟨⟨k, hk⟩, h0, h1⟩ := hcells r c hr0 hr1 hc0 hc1
  have hk0 : 0 ≤ k := by
    rw [hk] at h0
    exact_mod_cast h0
  have hkm : k ≤ m := by
    rw [hk, hm] at h1
    exact_mod_cast h1
  have hm0 : 0 ≤ m := le_trans hk0 hkm
  have hsZ : (0 : ℤ) < (s : ℤ) := by exact_mod_cast hs
  have hsA : ((s : ℕ) : α) = (((s : ℤ)) : α) := by push_cast; ring
  have hfk : ⌊p.cell r c / ((s : ℕ) : α)⌋ = k / (s : ℤ) := by
    rw [hk, hsA]
    exact floor_intCast_div_of_decomp hsZ (Int.ediv_add_emod k (s : ℤ)).symm
      (Int.emod_nonneg k (by omega)) (Int.emod_lt_of_pos k hsZ)
  have hfm : ⌊p.max_step / ((s : ℕ) : α)⌋ = m / (s : ℤ) := by
    rw [hm, hsA]
    exact floor_intCast_div_of_decomp hsZ (Int.ediv_add_emod m (s : ℤ)).symm
      (Int.emod_nonneg m (by omega)) (Int.emod_lt_of_pos m hsZ)
  have hmodk : jsMod (p.cell r c) ((s : ℕ) : α) = ((k % (s : ℤ) : ℤ) : α) := by
    rw [hk, hsA]
    exact jsMod_intCast_of_decomp hk0 hsZ (Int.ediv_add_emod k (s : ℤ)).symm
      (Int.emod_nonneg k (by omega)) (Int.emod_lt_of_pos k hsZ)
  have hmodm : jsMod (p.max_step + 1) ((s : ℕ) : α) = (((m + 1) % (s : ℤ) : ℤ) : α) := by
    have : p.max_step + 1 = ((m + 1 : ℤ) : α) := by rw [hm]; push_cast; ring
    rw [this, hsA]
    exact jsMod_intCast_of_decomp (by omega) hsZ (Int.ediv_add_emod (m + 1) (s : ℤ)).symm
      (Int.emod_nonneg (m + 1) (by omega)) (Int.emod_lt_of_pos (m + 1) hsZ)
  have hval : (PatternInterlaced p s).cell r c =
      ((k / (s : ℤ) + (m / (s : ℤ)) * (k % (s : ℤ))
        + min (k % (s : ℤ)) ((m + 1) % (s : ℤ)) : ℤ) : α) := by
    show ((⌊p.cell r c / ((s : ℕ) : α)⌋ : ℤ) : α)
      + ((⌊p.max_step / ((s : ℕ) : α)⌋ : ℤ) : α) * jsMod (p.cell r c) ((s : ℕ) : α)
      + min (jsMod (p.cell r c) ((s : ℕ) : α)) (jsMod (p.max_step + 1) ((s : ℕ) : α)) = _
    rw [hfk, hfm, hmodk, hmodm]
    push_cast [Int.cast_min]
    ring
  obtain ⟨hlo, hhi⟩ := interlace_int_bounds (s : ℤ) k m (by omega) hk0 hkm
  refine ⟨⟨_, hval⟩, ?_, ?_⟩
  · rw [hval]
    exact_mod_cast hlo
  · show (PatternInterlaced p s).cell r c ≤ p.max_step
    rw [hval, hm]
    exact_mod_cast hhi

theorem stepInv_reversed {p : Pattern α} (hp : StepInv p) :
    StepInv (PatternReversed p) := by
  obtain ⟨hms0, ⟨m, hm⟩, hcells⟩ := hp
  refine ⟨hms0, ⟨m, hm⟩, ?_⟩
  intro r c hr0 hr1 hc0 hc1
  obtain ⟨⟨k, hk⟩, h0, h1⟩ := hcells r c hr0 hr1 hc0 hc1
  refine ⟨⟨m - k, ?_⟩, ?_, ?_⟩
  · show p.max_step - p.cell r c = _
    rw [hm, hk]
    push_cast
    ring
  · show 0 ≤ p.max_step - p.cell r c
    linarith
  · show p.max_step - p.cell r c ≤ p.max_step
    linarith

theorem stepInv_mirrored {p : Pattern α} (hp : StepInv p) :
    StepInv (PatternMirrored p) := by
  obtain ⟨hms0, hmi, hcells⟩ := hp
  refine ⟨hms0, hmi, ?_⟩
  intro r c hr0 hr1 hc0 hc1
  have hrr : (PatternMirrored p).row_ct = p.row_ct := rfl
  have hcc : (PatternMirrored p).column_ct = p.column_ct := rfl
  rw [hrr] at hr1
  rw [hcc] at hc1
  exact hcells r ((p.column_ct : ℤ) - c - 1) hr0 hr1 (by omega) (by omega)

theorem stepInv_flipped {p : Pattern α} (hp : StepInv p) :
    StepInv (PatternFlipped p) := by
  obtain ⟨hms0, hmi, hcells⟩ := hp
  refine ⟨hms0, hmi, ?_⟩
  intro r c hr0 hr1 hc0 hc1
  have hrr : (PatternFlipped p).row_ct = p.row_ct := rfl
  have hcc : (PatternFlipped p).column_ct = p.column_ct := rfl
  rw [hrr] at hr1
  rw [hcc] at hc1
  exact hcells ((p.row_ct : ℤ) - r - 1) c (by omega) (by omega) hc0 hc1

theorem stepInv_reflected {p : Pattern α} (hp : StepInv p) :
    StepInv (PatternReflected p) := by
  obtain ⟨hms0, ⟨m, hm⟩, hcells⟩ := hp
  have hm0 : 0 ≤ m := by
    rw [hm] at hms0
    exact_mod_cast hms0
  have hmax : (PatternReflected p).max_step = reflect_max ((m : α) + 1) := by
    show reflect_max (p.max_step + 1) = _
    rw [hm]
  refine ⟨?_, ?_, ?_⟩
  · rw [hmax]
    have hc : (m : α) + 1 = ((m + 1 : ℤ) : α) := by push_cast; ring
    rw [hc]
    exact reflect_max_nonneg (by omega)
  · rw [hmax]
    exact ⟨⌊((m : α) + 1) / 2 - 1 / 2⌋, rfl⟩
  · intro r c hr0 hr1 hc0 hc1
    obtain ⟨⟨k, hk⟩, h0, h1⟩ := hcells r c hr0 hr1 hc0 hc1
    have hk0 : 0 ≤ k := by
      rw [hk] at h0
      exact_mod_cast h0
    have hkm : k ≤ m := by
      rw [hk, hm] at h1
      exact_mod_cast h1
    have hcell : (PatternReflected p).cell r c = reflect (k : α) ((m : α) + 1) := by
      show reflect (p.cell r c) (p.max_step + 1) = _
      rw [hk, hm]
    obtain ⟨v, hv, hv0, hvle⟩ := reflect_intCast_bounds (α := α) hk0 hkm
    refine ⟨⟨v, by rw [hcell, hv]⟩, ?_, ?_⟩
    · rw [hcell, hv]
      exact_mod_cast hv0
    · show (PatternReflected p).cell r c ≤ (PatternReflected p).max_step
      rw [hcell, hv, hmax]
      exact hvle

/-- Wrapper preservation: any composition of order wrappers (with valid
interlace strides) preserves the step invariant. -/
theorem stepInv_applyWrappers {ws : List Wrapper} {p : Pattern α}
    (hws : ∀ w ∈ ws, w.strideOK) (hp : StepInv p) :
    StepInv (applyWrappers ws p) := by
  induction ws generalizing p with
  | nil => exact hp
  | cons w ws ih =>
    apply ih (fun w' hw' => hws w' (List.mem_cons_of_mem w hw'))
    have hw : w.strideOK := hws w (List.mem_cons_self w ws)
    cases w with
    | interlaced s => exact stepInv_interlaced hp hw
    | reversed => exact stepInv_reversed hp
    | mirrored => exact stepInv_mirrored hp
    | flipped => exact stepInv_flipped hp
    | reflected => exact stepInv_reflected hp

end Preservation

section BaseGenerators

variable {α : Type*} [LinearOrderedField α] [FloorRing α]

theorem droop_range_nonneg {droop : α} (hd : 0 ≤ droop) (n : ℕ) :
    (0 : ℤ) ≤ ⌈droop * (n : α)⌉ :=
  Int.ceil_nonneg (by positivity)

theorem droop_offset_le {droop x : α} (hd : 0 ≤ droop) (hx0 : 0 ≤ x) (hx1 : x < 1)
    (n : ℕ) :
    0 ≤ ((⌊x * ((⌈droop * (n : α)⌉ : ℤ) : α)⌋ : ℤ) : α) ∧
    ((⌊x * ((⌈droop * (n : α)⌉ : ℤ) : α)⌋ : ℤ) : α) ≤ ((⌈droop * (n : α)⌉ : ℤ) : α) := by
  have hr0 : (0 : α) ≤ ((⌈droop * (n : α)⌉ : ℤ) : α) := by
    exact_mod_cast droop_range_nonneg hd n
  constructor
  · have h : ((0 : ℤ) : α) ≤ x * ((⌈droop * (n : α)⌉ : ℤ) : α) := by
      rw [Int.cast_zero]
      exact mul_nonneg hx0 hr0
    have : (0 : ℤ) ≤ ⌊x * ((⌈droop * (n : α)⌉ : ℤ) : α)⌋ := Int.le_floor.mpr h
    exact_mod_cast this
  · calc ((⌊x * ((⌈droop * (n : α)⌉ : ℤ) : α)⌋ : ℤ) : α)
        ≤ x * ((⌈droop * (n : α)⌉ : ℤ) : α) := Int.floor_le _
    _ ≤ 1 * ((⌈droop * (n : α)⌉ : ℤ) : α) :=
        mul_le_mul_of_nonneg_right hx1.le hr0
    _ = ((⌈droop * (n : α)⌉ : ℤ) : α) := one_mul _

theorem intCast_le_sub_one {r : ℤ} {n : ℕ} (h : r < (n : ℤ)) : (r : α) ≤ (n : α) - 1 := by
  have h1 : r ≤ (n : ℤ) - 1 := by omega
  have h2 : (r : α) ≤ (((n : ℤ) - 1 : ℤ) : α) := by exact_mod_cast h1
  push_cast at h2
  linarith

theorem intCast_nonneg_of {r : ℤ} (h : 0 ≤ r) : (0 : α) ≤ (r : α) := by
  exact_mod_cast h

theorem stepInv_row {row_ct column_ct : ℕ} {droop : α} {rand : ℤ → α}
    (hr : 1 ≤ row_ct) (hd : 0 ≤ droop) (hrand : ∀ i, 0 ≤ rand i ∧ rand i < 1) :
    StepInv (RowPattern row_ct column_ct droop rand) := by
  have hr0 : (0 : α) ≤ ((⌈droop * (row_ct : α)⌉ : ℤ) : α) := by
    exact_mod_cast droop_range_nonneg hd row_ct
  have hr1 : (1 : α) ≤ (row_ct : α) := by exact_mod_cast hr
  unfold StepInv RowPattern
  refine ⟨by dsimp only; linarith, ⟨(row_ct : ℤ) - 1 + ⌈droop * (row_ct : α)⌉, by dsimp only; push_cast; ring⟩, ?_⟩
  intro r c h0 h1 _ _
  dsimp only at h1 ⊢
  obtain ⟨ho0, ho1⟩ := droop_offset_le hd (hrand (c + 1)).1 (hrand (c + 1)).2 row_ct
  have hra : (r : α) ≤ (row_ct : α) - 1 := intCast_le_sub_one h1
  have hrnn : (0 : α) ≤ (r : α) := intCast_nonneg_of h0
  exact ⟨⟨r + ⌊rand (c + 1) * ((⌈droop * (row_ct : α)⌉ : ℤ) : α)⌋, by push_cast; ring⟩,
    by linarith, by linarith⟩

theorem stepInv_column {row_ct column_ct : ℕ} {droop : α} {rand : ℤ → α}
    (hc : 1 ≤ column_ct) (hd : 0 ≤ droop) (hrand : ∀ i, 0 ≤ rand i ∧ rand i < 1) :
    StepInv (ColumnPattern row_ct column_ct droop rand) := by
  have hr0 : (0 : α) ≤ ((⌈droop * (column_ct : α)⌉ : ℤ) : α) := by
    exact_mod_cast droop_range_nonneg hd column_ct
  have hr1 : (1 : α) ≤ (column_ct : α) := by exact_mod_cast hc
  unfold StepInv ColumnPattern
  refine ⟨by dsimp only; linarith, ⟨(column_ct : ℤ) - 1 + ⌈droop * (column_ct : α)⌉, by dsimp only; push_cast; ring⟩, ?_⟩
  intro r c _ _ h0 h1
  dsimp only at h1 ⊢
  obtain ⟨ho0, ho1⟩ := droop_offset_le hd (hrand (r + 1)).1 (hrand (r + 1)).2 column_ct
  have hca : (c : α) ≤ (column_ct : α) - 1 := intCast_le_sub_one h1
  have hcnn : (0 : α) ≤ (c : α) := intCast_nonneg_of h0
  exact ⟨⟨c + ⌊rand (r + 1) * ((⌈droop * (column_ct : α)⌉ : ℤ) : α)⌋, by push_cast; ring⟩,
    by linarith, by linarith⟩

theorem stepInv_diagonal {row_ct column_ct : ℕ} (hr : 1 ≤ row_ct) (hc : 1 ≤ column_ct) :
    StepInv (DiagonalPattern (α := α) row_ct column_ct) := by
  have h1 : (1 : α) ≤ (row_ct : α) := by exact_mod_cast hr
  have h2 : (1 : α) ≤ (column_ct : α) := by exact_mod_cast hc
  unfold StepInv DiagonalPattern
  refine ⟨by dsimp only; linarith, ⟨(row_ct : ℤ) - 1 + (column_ct : ℤ) - 1, by dsimp only; push_cast; ring⟩, ?_⟩
  intro r c h0 h1' h0' h1''
  dsimp only at h1' h1'' ⊢
  have ha : (r : α) ≤ (row_ct : α) - 1 := intCast_le_sub_one h1'
  have hb : (c : α) ≤ (column_ct : α) - 1 := intCast_le_sub_one h1''
  have ha0 : (0 : α) ≤ (r : α) := intCast_nonneg_of h0
  have hb0 : (0 : α) ≤ (c : α) := intCast_nonneg_of h0'
  exact ⟨⟨r + c, by push_cast; ring⟩, by linarith, by linarith⟩

end BaseGenerators

section ReflectGenerators

variable {α : Type*} [LinearOrderedField α] [FloorRing α]

theorem natCast_eq_intCast (n : ℕ) : ((n : ℕ) : α) = (((n : ℤ)) : α) := by push_cast; ring

theorem reflect_in_grid_nat {n : ℤ} {cnt : ℕ} (h0 : 0 ≤ n) (hn : n < (cnt : ℤ)) :
    ∃ v : ℤ, reflect (n : α) (cnt : α) = (v : α) ∧ 0 ≤ v ∧
      (v : α) ≤ reflect_max (cnt : α) := by
  rw [natCast_eq_intCast]
  exact reflect_in_grid h0 hn

theorem reflect_max_nonneg_nat {cnt : ℕ} (h : 1 ≤ cnt) :
    (0 : α) ≤ reflect_max (cnt : α) := by
  rw [natCast_eq_intCast]
  exact reflect_max_nonneg (by exact_mod_cast h)

theorem reflect_max_exists_int (x : α) : ∃ v : ℤ, reflect_max x = (v : α) :=
  ⟨⌊x / 2 - 1 / 2⌋, rfl⟩

theorem stepInv_rowCurtain {row_ct column_ct : ℕ} (hr : 1 ≤ row_ct) (hc : 1 ≤ column_ct) :
    StepInv (RowCurtainPattern (α := α) row_ct column_ct) := by
  have h1 : (1 : α) ≤ (row_ct : α) := by exact_mod_cast hr
  have hrm : (0 : α) ≤ reflect_max (column_ct : α) := reflect_max_nonneg_nat hc
  obtain ⟨w, hw⟩ := reflect_max_exists_int ((column_ct : ℕ) : α)
  unfold StepInv RowCurtainPattern
  refine ⟨by dsimp only; linarith, ⟨(row_ct : ℤ) - 1 + w, by dsimp only; rw [hw]; push_cast; ring⟩, ?_⟩
  intro r c h0 h1' h0' h1''
  dsimp only at h1' h1'' ⊢
  obtain ⟨v, hv, hv0, hvle⟩ := reflect_in_grid_nat (α := α) h0' h1''
  have hra : (r : α) ≤ (row_ct : α) - 1 := intCast_le_sub_one h1'
  have hr0 : (0 : α) ≤ (r : α) := intCast_nonneg_of h0
  have hvnn : (0 : α) ≤ (v : α) := intCast_nonneg_of hv0
  exact ⟨⟨r + v, by rw [hv]; push_cast; ring⟩, by rw [hv]; linarith, by rw [hv]; linarith⟩

theorem stepInv_columnCurtain {row_ct column_ct : ℕ} (hr : 1 ≤ row_ct) (hc : 1 ≤ column_ct) :
    StepInv (ColumnCurtainPattern (α := α) row_ct column_ct) := by
  have h1 : (1 : α) ≤ (column_ct : α) := by exact_mod_cast hc
  have hrm : (0 : α) ≤ reflect_max (row_ct : α) := reflect_max_nonneg_nat hr
  obtain ⟨w, hw⟩ := reflect_max_exists_int ((row_ct : ℕ) : α)
  unfold StepInv ColumnCurtainPattern
  refine ⟨by dsimp only; linarith, ⟨(column_ct : ℤ) - 1 + w, by dsimp only; rw [hw]; push_cast; ring⟩, ?_⟩
  intro r c h0 h1' h0' h1''
  dsimp only at h1' h1'' ⊢
  obtain ⟨v, hv, hv0, hvle⟩ := reflect_in_grid_nat (α := α) h0 h1'
  have hca : (c : α) ≤ (column_ct : α) - 1 := intCast_le_sub_one h1''
  have hc0 : (0 : α) ≤ (c : α) := intCast_nonneg_of h0'
  have hvnn : (0 : α) ≤ (v : α) := intCast_nonneg_of hv0
  exact ⟨⟨c + v, by rw [hv]; push_cast; ring⟩, by rw [hv]; linarith, by rw [hv]; linarith⟩

theorem stepInv_diagonalCurtain {row_ct column_ct : ℕ} (hr : 1 ≤ row_ct) (hc : 1 ≤ column_ct) :
    StepInv (DiagonalCurtainPattern (α := α) row_ct column_ct) := by
  have h1 : (1 : α) ≤ (row_ct : α) := by exact_mod_cast hr
  have h2 : (1 : α) ≤ (column_ct : α) := by exact_mod_cast hc
  unfold StepInv DiagonalCurtainPattern
  refine ⟨?_, ⟨min (row_ct : ℤ) (column_ct : ℤ) - 1, ?_⟩, ?_⟩
  · dsimp only
    have := le_min h1 h2
    linarith
  · dsimp only
    push_cast [Int.cast_min]
    ring
  · intro r c h0 h1' h0' h1''
    dsimp only at h1' h1'' ⊢
    refine ⟨⟨min r c, (Int.cast_min).symm⟩, ?_, ?_⟩
    · exact le_min (intCast_nonneg_of h0) (intCast_nonneg_of h0')
    · have ha : (r : α) ≤ (row_ct : α) - 1 := intCast_le_sub_one h1'
      have hb : (c : α) ≤ (column_ct : α) - 1 := intCast_le_sub_one h1''
      have hma : min (r : α) (c : α) ≤ (r : α) := min_le_left _ _
      have hmb : min (r : α) (c : α) ≤ (c : α) := min_le_right _ _
      have : min (row_ct : α) (column_ct : α) ≤ (row_ct : α) := min_le_left _ _
      rcases le_total (row_ct : α) (column_ct : α) with h | h
      · rw [min_eq_left h]
        linarith
      · rw [min_eq_right h]
        linarith

theorem stepInv_rowShutter {row_ct column_ct : ℕ} (hr : 1 ≤ row_ct) :
    StepInv (RowShutterPattern (α := α) row_ct column_ct) := by
  unfold StepInv RowShutterPattern
  refine ⟨reflect_max_nonneg_nat hr, reflect_max_exists_int _, ?_⟩
  intro r c h0 h1' _ _
  dsimp only at h1' ⊢
  obtain ⟨v, hv, hv0, hvle⟩ := reflect_in_grid_nat (α := α) h0 h1'
  exact ⟨⟨v, hv⟩, by rw [hv]; exact intCast_nonneg_of hv0, by rw [hv]; exact hvle⟩

theorem stepInv_columnShutter {row_ct column_ct : ℕ} (hc : 1 ≤ column_ct) :
    StepInv (ColumnShutterPattern (α := α) row_ct column_ct) := by
  unfold StepInv ColumnShutterPattern
  refine ⟨reflect_max_nonneg_nat hc, reflect_max_exists_int _, ?_⟩
  intro r c _ _ h0 h1'
  dsimp only at h1' ⊢
  obtain ⟨v, hv, hv0, hvle⟩ := reflect_in_grid_nat (α := α) h0 h1'
  exact ⟨⟨v, hv⟩, by rw [hv]; exact intCast_nonneg_of hv0, by rw [hv]; exact hvle⟩

theorem stepInv_mainDiagonalShutter {row_ct column_ct : ℕ}
    (hr : 1 ≤ row_ct) (hc : 1 ≤ column_ct) :
    StepInv (MainDiagonalShutterPattern (α := α) row_ct column_ct) := by
  have hsum : ((row_ct : α) + (column_ct : α)) = (((row_ct + column_ct : ℕ) : ℕ) : α) := by
    push_cast
    ring
  unfold StepInv MainDiagonalShutterPattern
  refine ⟨?_, ?_, ?_⟩
  · dsimp only
    rw [hsum]
    exact reflect_max_nonneg_nat (by omega)
  · dsimp only
    exact reflect_max_exists_int _
  · intro r c h0 h1' h0' h1''
    dsimp only at h1' h1'' ⊢
    have hrc : (r : α) + (c : α) = (((r + c : ℤ)) : α) := by push_cast; ring
    rw [hrc, hsum]
    obtain ⟨v, hv, hv0, hvle⟩ := reflect_in_grid_nat (α := α)
      (show (0 : ℤ) ≤ r + c by omega)
      (show r + c < ((row_ct + column_ct : ℕ) : ℤ) by push_cast; omega)
    exact ⟨⟨v, hv⟩, by rw [hv]; exact intCast_nonneg_of hv0, by rw [hv]; exact hvle⟩

theorem stepInv_diamond {row_ct column_ct : ℕ} (hr : 1 ≤ row_ct) (hc : 1 ≤ column_ct) :
    StepInv (DiamondPattern (α := α) row_ct column_ct) := by
  obtain ⟨w1, hw1⟩ := reflect_max_exists_int ((row_ct : ℕ) : α)
  obtain ⟨w2, hw2⟩ := reflect_max_exists_int ((column_ct : ℕ) : α)
  unfold StepInv DiamondPattern
  refine ⟨?_, ⟨w1 + w2, ?_⟩, ?_⟩
  · dsimp only
    have := reflect_max_nonneg_nat (α := α) hr
    have := reflect_max_nonneg_nat (α := α) hc
    linarith
  · dsimp only
    rw [hw1, hw2]
    push_cast
    ring
  · intro r c h0 h1' h0' h1''
    dsimp only at h1' h1'' ⊢
    obtain ⟨v1, hv1, hv10, hv1le⟩ := reflect_in_grid_nat (α := α) h0 h1'
    obtain ⟨v2, hv2, hv20, hv2le⟩ := reflect_in_grid_nat (α := α) h0' h1''
    refine ⟨⟨v1 + v2, by rw [hv1, hv2]; push_cast; ring⟩, ?_, ?_⟩
    · rw [hv1, hv2]
      have := intCast_nonneg_of (α := α) hv10
      have := intCast_nonneg_of (α := α) hv20
      linarith
    · rw [hv1, hv2]
      linarith

theorem stepInv_box {row_ct column_ct : ℕ} (hr : 1 ≤ row_ct) (hc : 1 ≤ column_ct) :
    StepInv (BoxPattern (α := α) row_ct column_ct) := by
  obtain ⟨w1, hw1⟩ := reflect_max_exists_int ((row_ct : ℕ) : α)
  obtain ⟨w2, hw2⟩ := reflect_max_exists_int ((column_ct : ℕ) : α)
  unfold StepInv BoxPattern
  refine ⟨?_, ⟨min w1 w2, ?_⟩, ?_⟩
  · dsimp only
    exact le_min (reflect_max_nonneg_nat hr) (reflect_max_nonneg_nat hc)
  · dsimp only
    rw [hw1, hw2, Int.cast_min]
  · intro r c h0 h1' h0' h1''
    dsimp only at h1' h1'' ⊢
    obtain ⟨v1, hv1, hv10, hv1le⟩ := reflect_in_grid_nat (α := α) h0 h1'
    obtain ⟨v2, hv2, hv20, hv2le⟩ := reflect_in_grid_nat (α := α) h0' h1''
    refine ⟨⟨min v1 v2, by rw [hv1, hv2, Int.cast_min]⟩, ?_, ?_⟩
    · rw [hv1, hv2]
      exact le_min (intCast_nonneg_of hv10) (intCast_nonneg_of hv20)
    · rw [hv1, hv2]
      exact min_le_min hv1le hv2le

theorem stepInv_random {row_ct column_ct : ℕ} {rand : ℤ → ℤ → α}
    (hrand : ∀ i j, 0 ≤ rand i j ∧ rand i j < 1) :
    StepInv (RandomPattern row_ct column_ct rand) := by
  unfold StepInv RandomPattern randomPatternFixedRange
  refine ⟨by dsimp only; norm_num, ⟨16, by dsimp only; norm_num⟩, ?_⟩
  intro r c _ _ _ _
  dsimp only
  obtain ⟨h0, h1⟩ := hrand (r + 1) (c + 1)
  have hf0 : (0 : ℤ) ≤ ⌊rand (r + 1) (c + 1) * ((16 : ℕ) : α)⌋ := by
    apply Int.le_floor.mpr
    rw [Int.cast_zero]
    positivity
  refine ⟨⟨_, rfl⟩, by exact_mod_cast hf0, ?_⟩
  calc ((⌊rand (r + 1) (c + 1) * ((16 : ℕ) : α)⌋ : ℤ) : α)
      ≤ rand (r + 1) (c + 1) * ((16 : ℕ) : α) := Int.floor_le _
  _ ≤ 1 * ((16 : ℕ) : α) := mul_le_mul_of_nonneg_right h1.le (by norm_num)
  _ = ((16 : ℕ) : α) := one_mul _

end ReflectGenerators

/-! ## SpiralPattern (script.js 737-848), over `ℝ` -/

section Spiral

/-- `const tau = Math.PI * 2` (script.js line 2). -/
noncomputable def tau : ℝ := Real.pi * 2

/-- `Math.atan2(y, x)`: angle of `(x, y)` in `(-π, π]`.  Signed zeros of IEEE
are collapsed (`atan2(±0, x ≥ 0) = 0`); no call site below distinguishes them. -/
noncomputable def atan2 (y x : ℝ) : ℝ :=
  if 0 < x then Real.arctan (y / x)
  else if x < 0 then
    (if 0 ≤ y then Real.arctan (y / x) + Real.pi else Real.arctan (y / x) - Real.pi)
  else
    (if 0 < y then Real.pi / 2 else if y < 0 then -(Real.pi / 2) else 0)

/-- `this.radius = Math.max(this.row_ct, this.column_ct) / 2`. -/
noncomputable def spiralRadius (row_ct column_ct : ℕ) : ℝ :=
  ((max row_ct column_ct : ℕ) : ℝ) / 2

/-- `this.spiral_width = this.radius / this.spiral_ct`. -/
noncomputable def spiralWidth (row_ct column_ct : ℕ) (spiral_ct : ℝ) : ℝ :=
  spiralRadius row_ct column_ct / spiral_ct

/-- `this.fill_meet = (1 + 1 / this.fill_delay) / 2`. -/
noncomputable def fillMeet (fill_delay : ℝ) : ℝ := (1 + 1 / fill_delay) / 2

/-- `this.scale = this.radius / 2 * tau`. -/
noncomputable def spiralScale (row_ct column_ct : ℕ) : ℝ :=
  spiralRadius row_ct column_ct / 2 * tau

/-- `SpiralPattern._calc(d, theta)` (script.js 802-832). -/
noncomputable def spiralCalc (row_ct column_ct : ℕ)
    (fill_delay arm_ct angle : ℝ) (d theta : ℝ) : ℝ :=
  let theta2 := jsMod (theta * arm_ct + tau * (2 - angle)) tau
  let offset := theta2 / tau
  let d2 := d - offset
  let nearest := ((⌊d2 + 1 - fillMeet fill_delay⌋ : ℤ) : ℝ)
  let dist0 := |nearest - d2|
  let t :=
    if d < offset then (if d < offset * fillMeet fill_delay then 0 else nearest + offset)
    else nearest + offset
  let dist :=
    if d < offset then (if d < offset * fillMeet fill_delay then d else offset - d)
    else dist0
  spiralScale row_ct column_ct * (t + dist * fill_delay)

/-- One corner sample of `SpiralPattern._get_max_step` (script.js 776-794):
cap `d` at the fill meet point, then `_calc`. -/
noncomputable def spiralCornerCalc (row_ct column_ct : ℕ)
    (fill_delay spiral_ct arm_ct angle : ℝ) (a : ℝ) : ℝ :=
  let dx := (column_ct : ℝ) / 2 - 1 / 2
  let dy := (row_ct : ℝ) / 2 - 1 / 2
  let d := Real.sqrt (dx * dx + dy * dy) / spiralWidth row_ct column_ct spiral_ct
  let offset := jsMod (a * arm_ct / tau - angle + 1) 1
  let d2 :=
    if d < offset then
      (if offset * fillMeet fill_delay < d then offset * fillMeet fill_delay else d)
    else
      (if fillMeet fill_delay < jsMod (d - offset) 1
        then d - jsMod (d - offset) 1 + fillMeet fill_delay else d)
  spiralCalc row_ct column_ct fill_delay arm_ct angle d2 a

/-- `SpiralPattern._get_max_step` (script.js 765-800): evaluate the formula at
all four grid corners and take the maximum. -/
noncomputable def spiralMaxStep (row_ct column_ct : ℕ)
    (fill_delay spiral_ct arm_ct angle : ℝ) : ℝ :=
  let dx := (column_ct : ℝ) / 2 - 1 / 2
  let dy := (row_ct : ℝ) / 2 - 1 / 2
  let base := jsMod (atan2 dy dx + tau) (tau / 4)
  max (max (spiralCornerCalc row_ct column_ct fill_delay spiral_ct arm_ct angle base)
        (spiralCornerCalc row_ct column_ct fill_delay spiral_ct arm_ct angle (tau / 2 - base)))
    (max (spiralCornerCalc row_ct column_ct fill_delay spiral_ct arm_ct angle (base + tau / 2))
      (spiralCornerCalc row_ct column_ct fill_delay spiral_ct arm_ct angle (tau - base)))

/-- `SpiralPattern` (script.js 737-848).  `cell(r, c)` maps the cell center to
polar coordinates (flipping `y` for `Math.atan2`) and calls `_calc`. -/
noncomputable def SpiralPattern (row_ct column_ct : ℕ)
    (fill_delay spiral_ct arm_ct angle : ℝ) : Pattern ℝ :=
  { row_ct := row_ct
    column_ct := column_ct
    cell := fun r c =>
      let x := ((c : ℝ) + 0.5) - (column_ct : ℝ) / 2
      let y := ((r : ℝ) + 0.5) - (row_ct : ℝ) / 2
      let d := Real.sqrt (x * x + y * y) / spiralWidth row_ct column_ct spiral_ct
      spiralCalc row_ct column_ct fill_delay arm_ct angle d (atan2 (-y) x)
    max_step := spiralMaxStep row_ct column_ct fill_delay spiral_ct arm_ct angle }

end Spiral

section SpiralEval

theorem tau_pos : (0 : ℝ) < tau := by
  have := Real.pi_pos
  rw [tau]
  linarith

theorem tau_ne_zero : tau ≠ 0 := ne_of_gt tau_pos

theorem tau_gt_six : (6 : ℝ) < tau := by
  have := Real.pi_gt_three
  rw [tau]
  linarith

theorem tau_lt_seven : tau < 7 := by
  have := Real.pi_lt_315
  rw [tau]
  linarith

theorem jsMod_eq_sub_intCast {α : Type*} [LinearOrderedField α] [FloorRing α]
    {x y : α} {k : ℤ} (h : x / y = (k : α)) : jsMod x y = x - y * (k : α) := by
  rw [jsMod, h, jsTrunc_intCast]

theorem atan2_zero_of_pos {x : ℝ} (hx : 0 < x) : atan2 0 x = 0 := by
  rw [atan2, if_pos hx, zero_div, Real.arctan_zero]

/-- Evaluation of `_calc` in the common branch `d ≥ offset`. -/
theorem spiralCalc_eval (R C : ℕ) (fd am an d th off : ℝ) (n : ℤ)
    (hmod : jsMod (th * am + tau * (2 - an)) tau = off * tau)
    (hd : ¬ d < off)
    (hn : ⌊d - off + 1 - fillMeet fd⌋ = n) :
    spiralCalc R C fd am an d th =
      spiralScale R C * (((n : ℝ) + off) + |(n : ℝ) - (d - off)| * fd) := by
  simp only [spiralCalc]
  rw [hmod]
  have hoff : off * tau / tau = off := mul_div_cancel_right₀ off tau_ne_zero
  rw [hoff, hn, if_neg hd, if_neg hd]

theorem spiralRadius_13 : spiralRadius 1 3 = 3 / 2 := by
  have h : (max 1 3 : ℕ) = 3 := by decide
  rw [spiralRadius, h]
  norm_num

theorem spiralWidth_13 : spiralWidth 1 3 1 = 3 / 2 := by
  rw [spiralWidth, spiralRadius_13, div_one]

theorem fillMeet_two : fillMeet 2 = 3 / 4 := by
  rw [fillMeet]
  norm_num

theorem spiralScale_13 : spiralScale 1 3 = 3 / 4 * tau := by
  rw [spiralScale, spiralRadius_13]
  ring

theorem jsMod_eq_of_div {α : Type*} [LinearOrderedField α] [FloorRing α]
    {x y q : α} (h : x / y = q) (h0 : 0 ≤ q) :
    jsMod x y = x - y * ((⌊q⌋ : ℤ) : α) := by
  rw [jsMod, h, jsTrunc_of_nonneg h0]

theorem spiralCalc_main : spiralCalc 1 3 2 1 0 (2 / 3) 0 = tau := by
  have hmod : jsMod ((0 : ℝ) * 1 + tau * (2 - 0)) tau = 0 * tau := by
    rw [jsMod_eq_sub_intCast (k := 2) (by
      rw [show (0 : ℝ) * 1 + tau * (2 - 0) = 2 * tau by ring, mul_div_assoc,
        div_self tau_ne_zero, mul_one]
      norm_num)]
    ring
  rw [spiralCalc_eval 1 3 2 1 0 (2 / 3) 0 0 0 hmod (by norm_num) (by
    rw [fillMeet_two]
    rw [show (2 : ℝ) / 3 - 0 + 1 - 3 / 4 = 11 / 12 by norm_num]
    rw [Int.floor_eq_zero_iff]
    constructor <;> norm_num)]
  rw [spiralScale_13]
  rw [show |((0 : ℤ) : ℝ) - (2 / 3 - 0)| = 2 / 3 by
    rw [show ((0 : ℤ) : ℝ) - (2 / 3 - 0) = -(2 / 3) by push_cast; ring, abs_neg]
    norm_num]
  push_cast
  ring

theorem spiralCalc_tau : spiralCalc 1 3 2 1 0 (2 / 3) tau = tau := by
  have hmod : jsMod (tau * 1 + tau * (2 - 0)) tau = 0 * tau := by
    rw [jsMod_eq_sub_intCast (k := 3) (by
      rw [show tau * 1 + tau * (2 - 0) = 3 * tau by ring, mul_div_assoc,
        div_self tau_ne_zero, mul_one]
      norm_num)]
    ring
  rw [spiralCalc_eval 1 3 2 1 0 (2 / 3) tau 0 0 hmod (by norm_num) (by
    rw [fillMeet_two]
    rw [show (2 : ℝ) / 3 - 0 + 1 - 3 / 4 = 11 / 12 by norm_num]
    rw [Int.floor_eq_zero_iff]
    constructor <;> norm_num)]
  rw [spiralScale_13]
  rw [show |((0 : ℤ) : ℝ) - (2 / 3 - 0)| = 2 / 3 by
    rw [show ((0 : ℤ) : ℝ) - (2 / 3 - 0) = -(2 / 3) by push_cast; ring, abs_neg]
    norm_num]
  push_cast
  ring

theorem spiralCalc_half : spiralCalc 1 3 2 1 0 (2 / 3) (tau / 2) = 5 / 8 * tau := by
  have hfloor : ⌊(5 / 2 : ℝ)⌋ = 2 := by
    rw [Int.floor_eq_iff]
    constructor <;> norm_num
  have hmod : jsMod (tau / 2 * 1 + tau * (2 - 0)) tau = 1 / 2 * tau := by
    rw [jsMod_eq_of_div (q := 5 / 2) (by
      rw [show tau / 2 * 1 + tau * (2 - 0) = 5 / 2 * tau by ring, mul_div_assoc,
        div_self tau_ne_zero, mul_one]) (by norm_num)]
    rw [hfloor]
    push_cast
    ring
  rw [spiralCalc_eval 1 3 2 1 0 (2 / 3) (tau / 2) (1 / 2) 0 hmod (by norm_num) (by
    rw [fillMeet_two]
    rw [show (2 : ℝ) / 3 - 1 / 2 + 1 - 3 / 4 = 5 / 12 by norm_num]
    rw [Int.floor_eq_zero_iff]
    constructor <;> norm_num)]
  rw [spiralScale_13]
  rw [show |((0 : ℤ) : ℝ) - (2 / 3 - 1 / 2)| = 1 / 6 by
    rw [show ((0 : ℤ) : ℝ) - (2 / 3 - 1 / 2) = -(1 / 6) by push_cast; ring, abs_neg]
    norm_num]
  push_cast
  ring

end SpiralEval

section SpiralDemo

/-- Evaluation of a corner sample when `d ≥ offset` and no capping applies. -/
theorem spiralCornerCalc_eval (R C : ℕ) (fd sc am an a dval off : ℝ)
    (hd : Real.sqrt (((C : ℝ) / 2 - 1 / 2) * ((C : ℝ) / 2 - 1 / 2)
        + ((R : ℝ) / 2 - 1 / 2) * ((R : ℝ) / 2 - 1 / 2)) / spiralWidth R C sc = dval)
    (hoff : jsMod (a * am / tau - an + 1) 1 = off)
    (h1 : ¬ dval < off)
    (h2 : ¬ fillMeet fd < jsMod (dval - off) 1) :
    spiralCornerCalc R C fd sc am an a = spiralCalc R C fd am an dval a := by
  simp only [spiralCornerCalc]
  rw [hd, hoff, if_neg h1, if_neg h2]

theorem spiral_demo_d :
    Real.sqrt (((3 : ℕ) : ℝ) / 2 - 1 / 2) * (((3 : ℕ) : ℝ) / 2 - 1 / 2) = 1 := by
  norm_num

theorem spiral_demo_dist :
    Real.sqrt ((((3 : ℕ) : ℝ) / 2 - 1 / 2) * (((3 : ℕ) : ℝ) / 2 - 1 / 2)
      + (((1 : ℕ) : ℝ) / 2 - 1 / 2) * (((1 : ℕ) : ℝ) / 2 - 1 / 2))
      / spiralWidth 1 3 1 = 2 / 3 := by
  rw [show (((3 : ℕ) : ℝ) / 2 - 1 / 2) * (((3 : ℕ) : ℝ) / 2 - 1 / 2)
      + (((1 : ℕ) : ℝ) / 2 - 1 / 2) * (((1 : ℕ) : ℝ) / 2 - 1 / 2) = 1 by norm_num]
  rw [Real.sqrt_one, spiralWidth_13]
  norm_num

theorem jsMod_two_thirds_one : jsMod ((2 : ℝ) / 3 - 0) 1 = 2 / 3 := by
  rw [jsMod_eq_of_div (q := 2 / 3) (by norm_num) (by norm_num)]
  rw [show ⌊(2 / 3 : ℝ)⌋ = 0 by rw [Int.floor_eq_zero_iff]; constructor <;> norm_num]
  norm_num

theorem jsMod_one_sixth_one : jsMod ((2 : ℝ) / 3 - 1 / 2) 1 = 1 / 6 := by
  rw [jsMod_eq_of_div (q := 1 / 6) (by norm_num) (by norm_num)]
  rw [show ⌊(1 / 6 : ℝ)⌋ = 0 by rw [Int.floor_eq_zero_iff]; constructor <;> norm_num]
  norm_num

theorem spiral_corner_zero : spiralCornerCalc 1 3 2 1 1 0 0 = tau := by
  rw [spiralCornerCalc_eval 1 3 2 1 1 0 0 (2 / 3) 0 spiral_demo_dist
    (by
      rw [show (0 : ℝ) * 1 / tau - 0 + 1 = 1 by rw [zero_mul, zero_div]; ring]
      rw [jsMod_eq_sub_intCast (k := 1) (by norm_num)]
      push_cast
      ring)
    (by norm_num)
    (by rw [jsMod_two_thirds_one, fillMeet_two]; norm_num)]
  rw [show spiralCalc 1 3 2 1 0 (2 / 3) 0 = tau from spiralCalc_main]

theorem spiral_corner_half : spiralCornerCalc 1 3 2 1 1 0 (tau / 2) = 5 / 8 * tau := by
  rw [spiralCornerCalc_eval 1 3 2 1 1 0 (tau / 2) (2 / 3) (1 / 2) spiral_demo_dist
    (by
      rw [show tau / 2 * 1 / tau - 0 + 1 = 3 / 2 by
        rw [mul_one, div_div, show tau / (2 * tau) = 1 / 2 by
          rw [mul_comm, ← div_div, div_self tau_ne_zero]]
        ring]
      rw [jsMod_eq_of_div (q := 3 / 2) (by norm_num) (by norm_num)]
      rw [show ⌊(3 / 2 : ℝ)⌋ = 1 by rw [Int.floor_eq_iff]; constructor <;> norm_num]
      norm_num)
    (by norm_num)
    (by rw [jsMod_one_sixth_one, fillMeet_two]; norm_num)]
  exact spiralCalc_half

theorem spiral_corner_tau : spiralCornerCalc 1 3 2 1 1 0 tau = tau := by
  rw [spiralCornerCalc_eval 1 3 2 1 1 0 tau (2 / 3) 0 spiral_demo_dist
    (by
      rw [show tau * 1 / tau - 0 + 1 = 2 by
        rw [mul_one, div_self tau_ne_zero]; ring]
      rw [jsMod_eq_sub_intCast (k := 2) (by norm_num)]
      push_cast
      ring)
    (by norm_num)
    (by rw [jsMod_two_thirds_one, fillMeet_two]; norm_num)]
  exact spiralCalc_tau

theorem spiral_demo_max : (SpiralPattern 1 3 2 1 1 0).max_step = tau := by
  show spiralMaxStep 1 3 2 1 1 0 = tau
  simp only [spiralMaxStep]
  rw [show (((1 : ℕ) : ℝ) / 2 - 1 / 2) = 0 by norm_num]
  rw [show (((3 : ℕ) : ℝ) / 2 - 1 / 2) = 1 by norm_num]
  rw [atan2_zero_of_pos (by norm_num : (0 : ℝ) < 1)]
  rw [show jsMod (0 + tau) (tau / 4) = 0 by
    rw [jsMod_eq_sub_intCast (k := 4) (by
      rw [zero_add, div_div_eq_mul_div, mul_comm, mul_div_assoc,
        div_self tau_ne_zero, mul_one]
      norm_num)]
    push_cast
    ring]
  rw [sub_zero, zero_add, sub_zero]
  rw [spiral_corner_zero, spiral_corner_half, spiral_corner_tau]
  have h58 : 5 / 8 * tau ≤ tau := by
    have := tau_pos
    linarith
  rw [max_eq_left h58, max_eq_right h58, max_self]

theorem spiral_demo_cell : (SpiralPattern 1 3 2 1 1 0).cell 0 2 = tau := by
  show spiralCalc 1 3 2 1 0
    (Real.sqrt _ / spiralWidth 1 3 1) (atan2 _ _) = tau
  rw [show (((2 : ℤ) : ℝ) + 0.5) - ((3 : ℕ) : ℝ) / 2 = 1 by push_cast; norm_num]
  rw [show (((0 : ℤ) : ℝ) + 0.5) - ((1 : ℕ) : ℝ) / 2 = 0 by push_cast; norm_num]
  rw [neg_zero, atan2_zero_of_pos (by norm_num : (0 : ℝ) < 1)]
  rw [show Real.sqrt ((1 : ℝ) * 1 + 0 * 0) = 1 by
    rw [show (1 : ℝ) * 1 + 0 * 0 = 1 by norm_num]; exact Real.sqrt_one]
  rw [spiralWidth_13]
  rw [show (1 : ℝ) / (3 / 2) = 2 / 3 by norm_num]
  exact spiralCalc_main

end SpiralDemo

section InterlacedSpiral

theorem floor_tau : ⌊tau⌋ = 6 := by
  rw [Int.floor_eq_iff]
  constructor
  · push_cast
    exact tau_gt_six.le
  · push_cast
    linarith [tau_lt_seven]

theorem floor_tau_add_one : ⌊tau + 1⌋ = 7 := by
  rw [Int.floor_eq_iff]
  constructor
  · push_cast
    linarith [tau_gt_six]
  · push_cast
    linarith [tau_lt_seven]

theorem jsMod_tau_one : jsMod tau 1 = tau - 6 := by
  rw [jsMod_eq_of_div (q := tau) (div_one tau) tau_pos.le, floor_tau]
  push_cast
  ring

theorem jsMod_tau_add_one_one : jsMod (tau + 1) 1 = tau - 6 := by
  rw [jsMod_eq_of_div (q := tau + 1) (div_one _) (by linarith [tau_pos]),
    floor_tau_add_one]
  push_cast
  ring

/-- Interlace with stride 1 applied to the demo spiral: the real-valued step
`tau` at cell (0, 2) becomes `7 * tau - 36 ≈ 7.98`. -/
theorem interlaced_spiral_cell :
    (PatternInterlaced (SpiralPattern 1 3 2 1 1 0) 1).cell 0 2 = 7 * tau - 36 := by
  show ((⌊(SpiralPattern 1 3 2 1 1 0).cell 0 2 / ((1 : ℕ) : ℝ)⌋ : ℤ) : ℝ)
      + ((⌊(SpiralPattern 1 3 2 1 1 0).max_step / ((1 : ℕ) : ℝ)⌋ : ℤ) : ℝ)
        * jsMod ((SpiralPattern 1 3 2 1 1 0).cell 0 2) ((1 : ℕ) : ℝ)
      + min (jsMod ((SpiralPattern 1 3 2 1 1 0).cell 0 2) ((1 : ℕ) : ℝ))
          (jsMod ((SpiralPattern 1 3 2 1 1 0).max_step + 1) ((1 : ℕ) : ℝ)) = _
  rw [spiral_demo_cell, spiral_demo_max, Nat.cast_one, div_one, floor_tau,
    jsMod_tau_one, jsMod_tau_add_one_one, min_self]
  push_cast
  ring

end InterlacedSpiral

/-! ## Claim C2: `max_step >= cell(r, c)` -/

/-- C2 counterexample: for the spiral generator on a 1x3 grid
(`fill_delay = 2`, `spiral_ct = arm_ct = 1`, `angle = 0`) wrapped in
`PatternInterlaced` with stride 1, the in-grid cell (0, 2) has step
`7*tau - 36 ≈ 7.98`, strictly greater than the wrapper's
`max_step = tau ≈ 6.28` (copied from the spiral's corner-sampled estimate).
The interlace formula `floor(step/s) + floor(max_step/s)*(step % s) + ...`
assumes integer steps; the spiral's real-valued steps break it, so the claim
"max_step >= cell(r, c) for every generator and wrapper" is false as stated. -/
theorem C2_counterexample :
    (PatternInterlaced (SpiralPattern 1 3 2 1 1 0) 1).max_step
      < (PatternInterlaced (SpiralPattern 1 3 2 1 1 0) 1).cell 0 2 := by
  rw [interlaced_spiral_cell]
  show (SpiralPattern 1 3 2 1 1 0).max_step < _
  rw [spiral_demo_max]
  linarith [tau_gt_six]

/-! ## Claim C6: Interlace with stride 1 -/

/-- C6 counterexample: `Interlaced(G, 1).cell(r, c) == G.cell(r, c)` fails for
the real-valued spiral generator: at cell (0, 2) of the 1x3 demo spiral the
wrapped step is `tau` but the interlaced step is `7*tau - 36 ≠ tau`
(the fractional part `tau - 6` survives `step % 1`). -/
theorem C6_counterexample :
    (PatternInterlaced (SpiralPattern 1 3 2 1 1 0) 1).cell 0 2
      ≠ (SpiralPattern 1 3 2 1 1 0).cell 0 2 := by
  rw [interlaced_spiral_cell, spiral_demo_cell]
  intro h
  have : tau = 6 := by linarith
  linarith [tau_gt_six]

/-- C6 (amended): for stride 1, `Interlaced(G, 1).cell(r, c) == G.cell(r, c)`
holds at every cell whose step is an integer, for any generator whose
`max_step` is at least `-1` (so the `(max_step + 1) % 1` term is nonnegative).
This covers all generators except the real-valued spiral, for which the
identity fails (see the counterexample). -/
theorem C6_interlaced_stride_one {α : Type*} [LinearOrderedField α] [FloorRing α]
    (p : Pattern α) (r c : ℤ) (hint : ∃ k : ℤ, p.cell r c = (k : α))
    (hm : -1 ≤ p.max_step) :
    (PatternInterlaced p 1).cell r c = p.cell r c := by
  obtain ⟨k, hk⟩ := hint
  show ((⌊p.cell r c / ((1 : ℕ) : α)⌋ : ℤ) : α)
      + ((⌊p.max_step / ((1 : ℕ) : α)⌋ : ℤ) : α) * jsMod (p.cell r c) ((1 : ℕ) : α)
      + min (jsMod (p.cell r c) ((1 : ℕ) : α)) (jsMod (p.max_step + 1) ((1 : ℕ) : α))
      = p.cell r c
  rw [Nat.cast_one, hk, div_one, Int.floor_intCast]
  have hmod : jsMod ((k : α)) 1 = 0 := by
    rw [jsMod, div_one, jsTrunc_intCast]
    ring
  rw [hmod, mul_zero, add_zero]
  have hmod2 : 0 ≤ jsMod (p.max_step + 1) 1 := by
    apply jsMod_nonneg _ one_pos
    linarith
  rw [min_eq_left hmod2, add_zero]

/-- Witness for C6 at a concrete integer-step generator. -/
theorem C6_witness :
    (PatternInterlaced (DiagonalPattern (α := ℚ) 2 2) 1).cell 1 1
      = (DiagonalPattern (α := ℚ) 2 2).cell 1 1 :=
  C6_interlaced_stride_one (DiagonalPattern (α := ℚ) 2 2) 1 1
    ⟨2, by norm_num [DiagonalPattern]⟩
    (by norm_num [DiagonalPattern])

/-! ## Claim C5: RandomPattern -/

/-- C5 counterexample: the claim says `max_step = fixed_range - 1`.  In the
source, `_get_max_step()` returns the hard-coded constant 16 and the
constructor draws cells from `[0, range)` with `range = this.max_step = 16`:
so the draw range IS `max_step` itself, and `max_step = fixed_range = 16`,
not `fixed_range - 1 = 15`. -/
theorem C5_counterexample :
    (RandomPattern 1 1 (fun _ _ => (0 : ℚ))).max_step
      ≠ ((randomPatternFixedRange : ℚ) - 1) := by
  show ((randomPatternFixedRange : ℕ) : ℚ) ≠ _
  rw [randomPatternFixedRange]
  norm_num

/-- C5 (amended): `RandomPattern` assigns every cell of the
`(row_ct + 2) × (column_ct + 2)` table (the grid plus one ring of border
cells) an independent random integer in `[0, fixed_range)` where
`fixed_range = 16` is hard-coded and not derived from the grid size, and
`max_step` equals `fixed_range` itself (not `fixed_range - 1`). -/
theorem C5_random_pattern {α : Type*} [LinearOrderedField α] [FloorRing α]
    (row_ct column_ct : ℕ) (rand : ℤ → ℤ → α)
    (hrand : ∀ i j, 0 ≤ rand i j ∧ rand i j < 1) :
    (RandomPattern row_ct column_ct rand).max_step = (randomPatternFixedRange : α) ∧
    ∀ r c : ℤ, -1 ≤ r → r ≤ row_ct → -1 ≤ c → c ≤ column_ct →
      ∃ k : ℤ, (RandomPattern row_ct column_ct rand).cell r c = (k : α) ∧
        0 ≤ k ∧ k < randomPatternFixedRange := by
  refine ⟨rfl, ?_⟩
  intro r c _ _ _ _
  obtain ⟨h0, h1⟩ := hrand (r + 1) (c + 1)
  refine ⟨⌊rand (r + 1) (c + 1) * ((randomPatternFixedRange : ℕ) : α)⌋, rfl, ?_, ?_⟩
  · apply Int.le_floor.mpr
    rw [Int.cast_zero]
    positivity
  · apply Int.floor_lt.mpr
    calc rand (r + 1) (c + 1) * ((randomPatternFixedRange : ℕ) : α)
        < 1 * ((randomPatternFixedRange : ℕ) : α) := by
          apply mul_lt_mul_of_pos_right h1
          rw [randomPatternFixedRange]
          norm_num
    _ = (((randomPatternFixedRange : ℕ) : ℤ) : α) := by push_cast; ring

/-- Witness for C5 at a concrete grid and oracle. -/
theorem C5_witness :
    (RandomPattern 1 1 (fun _ _ => (1 / 2 : ℚ))).max_step = (randomPatternFixedRange : ℚ) :=
  (C5_random_pattern 1 1 (fun _ _ => (1 / 2 : ℚ))
    (fun _ _ => by norm_num)).1

/-! ## InfectPattern (script.js 876-947): multi-source BFS flood fill -/

section Infect

/-- Neighbour pushes, in source order: up, down, left, right. -/
def infectNbrs (p : ℤ × ℤ) : List (ℤ × ℤ) :=
  [(p.1 - 1, p.2), (p.1 + 1, p.2), (p.1, p.2 - 1), (p.1, p.2 + 1)]

/-- The bounds check of the flood fill (script.js 919): a coordinate is kept
unless `r < -1 || r > row_ct || c < -1 || c > column_ct`, i.e. the grid plus
one ring of border cells. -/
def infectInBounds (row_ct column_ct : ℕ) (p : ℤ × ℤ) : Prop :=
  -1 ≤ p.1 ∧ p.1 ≤ (row_ct : ℤ) ∧ -1 ≤ p.2 ∧ p.2 ≤ (column_ct : ℤ)

instance (row_ct column_ct : ℕ) : DecidablePred (infectInBounds row_ct column_ct) :=
  fun _ => by unfold infectInBounds; infer_instance

/-- The `cells` table, as a map from (r, c) to the assigned step;
`none` models an `undefined` array slot. -/
def InfectCells : Type := ℤ × ℤ → Option ℕ

def infectAssign (cells : InfectCells) (p : ℤ × ℤ) (v : ℕ) : InfectCells :=
  fun q => if q = p then some v else cells q

/-- One round of the flood fill (the `for (const [r, c] of this_round)` body,
script.js 918-931): process the queued coordinates in order, assigning `step`
to fresh in-bounds cells and collecting their neighbour pushes. -/
def infectRound (row_ct column_ct : ℕ) (step : ℕ) :
    List (ℤ × ℤ) → InfectCells → InfectCells × List (ℤ × ℤ)
  | [], cells => (cells, [])
  | p :: rest, cells =>
    if infectInBounds row_ct column_ct p ∧ cells p = none then
      let out := infectRound row_ct column_ct step rest (infectAssign cells p step)
      (out.1, infectNbrs p ++ out.2)
    else infectRound row_ct column_ct step rest cells

/-- The `while (next_round.length > 0)` loop (script.js 914-934), with fuel.
The step counter increments every round, including the final round that
assigns nothing. -/
def infectLoop (row_ct column_ct : ℕ) :
    ℕ → InfectCells → List (ℤ × ℤ) → ℕ → InfectCells × ℕ
  | _, cells, [], step => (cells, step)
  | 0, cells, _, step => (cells, step)
  | fuel + 1, cells, queue, step =>
    let out := infectRound row_ct column_ct step queue cells
    infectLoop row_ct column_ct fuel out.1 out.2 (step + 1)

/-- Seed index `n` to grid coordinate: `r = Math.floor(n / column_ct)`,
`c = n % column_ct` (script.js 902-903). -/
def infectSeedCoord (column_ct n : ℕ) : ℤ × ℤ :=
  (((n / column_ct : ℕ) : ℤ), ((n % column_ct : ℕ) : ℤ))

/-- Seed cells all hold step 0 (script.js 904).  The random seed indices are
modelled by the parameter `seeds` (the source draws them with rejection of
duplicates; duplicates would be harmless here since every seed holds 0). -/
def infectSeedCells (column_ct : ℕ) (seeds : List ℕ) : InfectCells :=
  fun p => if seeds.any (fun n => infectSeedCoord column_ct n = p) then some 0 else none

/-- The initial queue: each seed pushes its four neighbours, in seed order. -/
def infectSeedQueue (column_ct : ℕ) (seeds : List ℕ) : List (ℤ × ℤ) :=
  seeds.flatMap (fun n => infectNbrs (infectSeedCoord column_ct n))

/-- Enough fuel for the loop: one round per assignment plus the final empty
round (the table has `(row_ct + 2) * (column_ct + 2)` slots). -/
def infectFuel (row_ct column_ct : ℕ) : ℕ := (row_ct + 2) * (column_ct + 2) + 1

def infectRun (row_ct column_ct : ℕ) (seeds : List ℕ) : InfectCells × ℕ :=
  infectLoop row_ct column_ct (infectFuel row_ct column_ct)
    (infectSeedCells column_ct seeds) (infectSeedQueue column_ct seeds) 1

def infectCells (row_ct column_ct : ℕ) (seeds : List ℕ) : InfectCells :=
  (infectRun row_ct column_ct seeds).1

/-- `max_step = step - 1` after the loop (script.js 936). -/
def infectMaxStep (row_ct column_ct : ℕ) (seeds : List ℕ) : ℕ :=
  (infectRun row_ct column_ct seeds).2 - 1

/-- `InfectPattern` packaged as a `Pattern`; `cell(r, c)` reads
`cells[r+1][c+1]` coordinate-translated to `(r, c)`, with an unreached
(`undefined`) cell rendered as 0 (unreached cells must not be sampled). -/
def InfectPatternP (α : Type*) [LinearOrderedField α] (row_ct column_ct : ℕ)
    (seeds : List ℕ) : Pattern α :=
  { row_ct := row_ct
    column_ct := column_ct
    cell := fun r c => (((infectCells row_ct column_ct seeds (r, c)).getD 0 : ℕ) : α)
    max_step := ((infectMaxStep row_ct column_ct seeds : ℕ) : α) }

/-- The table domain as a finite set. -/
def infectDom (row_ct column_ct : ℕ) : Finset (ℤ × ℤ) :=
  Finset.Icc (-1 : ℤ) (row_ct : ℤ) ×ˢ Finset.Icc (-1 : ℤ) (column_ct : ℤ)

theorem mem_infectDom {row_ct column_ct : ℕ} {p : ℤ × ℤ} :
    p ∈ infectDom row_ct column_ct ↔ infectInBounds row_ct column_ct p := by
  rw [infectDom, Finset.mem_product, Finset.mem_Icc, Finset.mem_Icc, infectInBounds]
  tauto

theorem card_infectDom (row_ct column_ct : ℕ) :
    (infectDom row_ct column_ct).card = (row_ct + 2) * (column_ct + 2) := by
  rw [infectDom, Finset.card_product, Int.card_Icc, Int.card_Icc]
  have h1 : ((row_ct : ℤ) + 1 - (-1)).toNat = row_ct + 2 := by omega
  have h2 : ((column_ct : ℤ) + 1 - (-1)).toNat = column_ct + 2 := by omega
  rw [h1, h2]

/-- The number of unassigned slots, the loop's termination measure. -/
def infectUnassigned (row_ct column_ct : ℕ) (cells : InfectCells) : ℕ :=
  ((infectDom row_ct column_ct).filter (fun p => cells p = none)).card

end Infect

section InfectRoundLemmas

variable {R C s : ℕ}

theorem infectRound_mono {q : List (ℤ × ℤ)} {cells : InfectCells} {p : ℤ × ℤ} {v : ℕ}
    (h : cells p = some v) : (infectRound R C s q cells).1 p = some v := by
  induction q generalizing cells with
  | nil => exact h
  | cons x rest ih =>
    simp only [infectRound]
    split
    · rename_i hx
      apply ih
      rw [infectAssign]
      split
      · rename_i hq
        subst hq
        rw [h] at hx
        exact absurd hx.2 (by simp)
      · exact h
    · exact ih h

theorem infectRound_origin {q : List (ℤ × ℤ)} {cells : InfectCells} {p : ℤ × ℤ} {v : ℕ}
    (h : (infectRound R C s q cells).1 p = some v) :
    cells p = some v ∨
      (v = s ∧ infectInBounds R C p ∧ cells p = none ∧ p ∈ q) := by
  induction q generalizing cells with
  | nil => exact Or.inl h
  | cons x rest ih =>
    rw [infectRound] at h
    split at h
    · rename_i hx
      rcases ih h with hold | ⟨hv, hb, hn, hmem⟩
      · rw [infectAssign] at hold
        split at hold
        · rename_i hq
          have hv : v = s := (Option.some_inj.mp hold).symm
          exact Or.inr ⟨hv, by rw [hq]; exact hx.1, by rw [hq]; exact hx.2,
            by rw [hq]; exact List.mem_cons_self x rest⟩
        · exact Or.inl hold
      · rw [infectAssign] at hn
        split at hn
        · exact absurd hn (by simp)
        · exact Or.inr ⟨hv, hb, hn, List.mem_cons_of_mem x hmem⟩
    · rcases ih h with hold | ⟨hv, hb, hn, hmem⟩
      · exact Or.inl hold
      · exact Or.inr ⟨hv, hb, hn, List.mem_cons_of_mem x hmem⟩

theorem infectRound_covers {q : List (ℤ × ℤ)} {cells : InfectCells} {p : ℤ × ℤ}
    (hmem : p ∈ q) (hb : infectInBounds R C p) :
    (infectRound R C s q cells).1 p ≠ none := by
  induction q generalizing cells with
  | nil => cases hmem
  | cons x rest ih =>
    rw [infectRound]
    rcases List.mem_cons.mp hmem with rfl | hmem'
    · split
      · rename_i hx
        have : infectAssign cells p s p = some s := by
          rw [infectAssign, if_pos rfl]
        rw [infectRound_mono this]
        simp
      · rename_i hx
        rw [not_and_or] at hx
        rcases hx with hx | hx
        · exact absurd hb hx
        · rcases Option.ne_none_iff_exists.mp hx with ⟨w, hw⟩
          rw [infectRound_mono hw.symm]
          simp
    · split
      · exact ih hmem'
      · exact ih hmem'

theorem infectRound_pushes {q : List (ℤ × ℤ)} :
    ∀ {cells : InfectCells} {p : ℤ × ℤ}, cells p = none →
      (infectRound R C s q cells).1 p ≠ none →
      ∀ x ∈ infectNbrs p, x ∈ (infectRound R C s q cells).2 := by
  induction q with
  | nil =>
    intro cells p hnone hassigned x _
    exact absurd hnone hassigned
  | cons y rest ih =>
    intro cells p hnone hassigned x hx
    by_cases hy : infectInBounds R C y ∧ cells y = none
    · simp only [infectRound, if_pos hy] at hassigned ⊢
      by_cases hpy : p = y
      · subst hpy
        exact List.mem_append_left _ hx
      · apply List.mem_append_right
        exact ih (by rw [infectAssign, if_neg hpy]; exact hnone) hassigned x hx
    · simp only [infectRound, if_neg hy] at hassigned ⊢
      exact ih hnone hassigned x hx

theorem infectRound_queue_origin {q : List (ℤ × ℤ)} {cells : InfectCells} {x : ℤ × ℤ}
    (h : x ∈ (infectRound R C s q cells).2) :
    ∃ p, cells p = none ∧ (infectRound R C s q cells).1 p = some s ∧
      x ∈ infectNbrs p := by
  induction q generalizing cells with
  | nil => cases h
  | cons y rest ih =>
    rw [infectRound] at h ⊢
    split at h <;> rename_i hy
    · rcases List.mem_append.mp h with hx | hx
      · refine ⟨y, hy.2, ?_, hx⟩
        have : infectAssign cells y s y = some s := by
          rw [infectAssign, if_pos rfl]
        have hmono := infectRound_mono (q := rest) (R := R) (C := C) (s := s) this
        split
        · exact hmono
        · rename_i hcontra
          exact absurd hy hcontra
      · rcases ih hx with ⟨p, hn, hsome, hnb⟩
        have hpy : p ≠ y := by
          intro hpy
          subst hpy
          rw [infectAssign, if_pos rfl] at hn
          exact Option.noConfusion hn
        rw [infectAssign, if_neg hpy] at hn
        refine ⟨p, hn, ?_, hnb⟩
        split
        · exact hsome
        · rename_i hcontra
          exact absurd hy hcontra
    · rcases ih h with ⟨p, hn, hsome, hnb⟩
      refine ⟨p, hn, ?_, hnb⟩
      split
      · rename_i hcontra
        exact absurd hcontra hy
      · exact hsome

theorem infectRound_empty_no_assign {q : List (ℤ × ℤ)} {cells : InfectCells}
    (h : (infectRound R C s q cells).2 = []) :
    (infectRound R C s q cells).1 = cells := by
  induction q generalizing cells with
  | nil => rfl
  | cons y rest ih =>
    rw [infectRound] at h ⊢
    split at h <;> rename_i hy
    · exact absurd h (by simp [infectNbrs])
    · rw [if_neg hy]
      exact ih h

theorem infectRound_none_of_none {q : List (ℤ × ℤ)} {cells : InfectCells} {p : ℤ × ℤ}
    (h : (infectRound R C s q cells).1 p = none) : cells p = none := by
  by_contra hcon
  rcases Option.ne_none_iff_exists.mp hcon with ⟨w, hw⟩
  rw [infectRound_mono hw.symm] at h
  exact Option.noConfusion h

theorem infectRound_unassigned_le {q : List (ℤ × ℤ)} {cells : InfectCells} :
    infectUnassigned R C (infectRound R C s q cells).1 ≤ infectUnassigned R C cells := by
  apply Finset.card_le_card
  intro z hz
  rw [Finset.mem_filter] at hz ⊢
  exact ⟨hz.1, infectRound_none_of_none hz.2⟩

theorem infectRound_unassigned_lt {q : List (ℤ × ℤ)} {cells : InfectCells}
    (hne : (infectRound R C s q cells).2 ≠ []) :
    infectUnassigned R C (infectRound R C s q cells).1 < infectUnassigned R C cells := by
  rcases List.exists_mem_of_ne_nil _ hne with ⟨x, hx⟩
  rcases infectRound_queue_origin hx with ⟨p, hn, hsome, _⟩
  have hb : infectInBounds R C p := by
    rcases infectRound_origin hsome with hold | ⟨_, hb, _, _⟩
    · rw [hold] at hn
      exact Option.noConfusion hn
    · exact hb
  apply Finset.card_lt_card
  rw [Finset.ssubset_iff_of_subset]
  · exact ⟨p, by
      rw [Finset.mem_filter]
      exact ⟨mem_infectDom.mpr hb, hn⟩, by
      rw [Finset.mem_filter, hsome]
      simp⟩
  · intro z hz
    rw [Finset.mem_filter] at hz ⊢
    exact ⟨hz.1, infectRound_none_of_none hz.2⟩

end InfectRoundLemmas

section InfectLoop

/-- Loop invariant of the flood fill: assigned cells are in bounds, the
frontier of the assigned region is queued, all values are below the round
counter, and the value `step - 1` was assigned in the previous round. -/
def InfectInv (R C : ℕ) (cells : InfectCells) (queue : List (ℤ × ℤ)) (step : ℕ) : Prop :=
  (∀ p v, cells p = some v → infectInBounds R C p) ∧
  (∀ p v, cells p = some v → ∀ x ∈ infectNbrs p, infectInBounds R C x →
    cells x ≠ none ∨ x ∈ queue) ∧
  (∀ p v, cells p = some v → v < step) ∧
  (∃ p, cells p = some (step - 1)) ∧ 1 ≤ step

theorem infectLoop_spec {R C : ℕ} :
    ∀ (fuel : ℕ) (cells : InfectCells) (queue : List (ℤ × ℤ)) (step : ℕ),
      InfectInv R C cells queue step → queue ≠ [] →
      infectUnassigned R C cells < fuel →
      (∀ p v, (infectLoop R C fuel cells queue step).1 p = some v →
        infectInBounds R C p) ∧
      (∀ p, (infectLoop R C fuel cells queue step).1 p ≠ none →
        ∀ x ∈ infectNbrs p, infectInBounds R C x →
          (infectLoop R C fuel cells queue step).1 x ≠ none) ∧
      (∀ p v, (infectLoop R C fuel cells queue step).1 p = some v →
        v + 2 ≤ (infectLoop R C fuel cells queue step).2) ∧
      (∃ p, (infectLoop R C fuel cells queue step).1 p =
        some ((infectLoop R C fuel cells queue step).2 - 2)) ∧
      step + 1 ≤ (infectLoop R C fuel cells queue step).2 ∧
      (∀ p v, cells p = some v → (infectLoop R C fuel cells queue step).1 p = some v) := by
  intro fuel
  induction fuel with
  | zero =>
    intro cells queue step _ _ hfuel
    omega
  | succ fuel ih =>
    intro cells queue step hinv hqne hfuel
    obtain ⟨hI1, hI2, hI3, hI4, hstep1⟩ := hinv
    cases queue with
    | nil => exact absurd rfl hqne
    | cons y rest =>
    have hunfold : infectLoop R C (fuel + 1) cells (y :: rest) step =
        infectLoop R C fuel (infectRound R C step (y :: rest) cells).1
          (infectRound R C step (y :: rest) cells).2 (step + 1) := rfl
    rw [hunfold]
    by_cases hq2 : (infectRound R C step (y :: rest) cells).2 = []
    · -- final (empty) round: nothing was assigned, the loop exits
      have hsame : (infectRound R C step (y :: rest) cells).1 = cells :=
        infectRound_empty_no_assign hq2
      have hdone : infectLoop R C fuel (infectRound R C step (y :: rest) cells).1
          (infectRound R C step (y :: rest) cells).2 (step + 1) = (cells, step + 1) := by
        rw [hq2, hsame]
        cases fuel <;> rfl
      rw [hdone]
      refine ⟨fun p v h => hI1 p v h, ?_, ?_, ?_, le_refl _, fun p v h => h⟩
      · intro p hp x hx hxb
        rcases Option.ne_none_iff_exists.mp hp with ⟨v, hv⟩
        rcases hI2 p v hv.symm x hx hxb with h | h
        · exact h
        · have := @infectRound_covers R C step _ cells _ h hxb
          rw [hsame] at this
          exact this
      · intro p v h
        have := hI3 p v h
        omega
      · obtain ⟨p, hp⟩ := hI4
        refine ⟨p, ?_⟩
        show cells p = some (step + 1 - 2)
        have h21 : step + 1 - 2 = step - 1 := by omega
        rw [h21, hp]
    · -- a productive round: re-establish the invariant and recurse
      have hmono : ∀ p v, cells p = some v →
          (infectRound R C step (y :: rest) cells).1 p = some v :=
        fun p v h => infectRound_mono h
      have hinv2 : InfectInv R C (infectRound R C step (y :: rest) cells).1
          (infectRound R C step (y :: rest) cells).2 (step + 1) := by
        refine ⟨?_, ?_, ?_, ?_, by omega⟩
        · intro p v h
          rcases infectRound_origin h with hold | ⟨_, hb, _, _⟩
          · exact hI1 p v hold
          · exact hb
        · intro p v h x hx hxb
          rcases infectRound_origin h with hold | ⟨hv, hb, hn, _⟩
          · left
            rcases hI2 p v hold x hx hxb with hc | hc
            · rcases Option.ne_none_iff_exists.mp hc with ⟨w, hw⟩
              rw [hmono x w hw.symm]
              simp
            · exact infectRound_covers hc hxb
          · right
            exact infectRound_pushes hn (by rw [h]; simp) x hx
        · intro p v h
          rcases infectRound_origin h with hold | ⟨hv, _, _, _⟩
          · have := hI3 p v hold
            omega
          · omega
        · rcases List.exists_mem_of_ne_nil _ hq2 with ⟨x, hx⟩
          rcases infectRound_queue_origin hx with ⟨p, _, hsome, _⟩
          refine ⟨p, ?_⟩
          have h11 : step + 1 - 1 = step := by omega
          rw [h11, hsome]
      have hfuel2 : infectUnassigned R C (infectRound R C step (y :: rest) cells).1 < fuel := by
        have := @infectRound_unassigned_lt R C step (y :: rest) cells hq2
        omega
      obtain ⟨c1, c2, c3, c4, c5, c6⟩ := ih (infectRound R C step (y :: rest) cells).1
        (infectRound R C step (y :: rest) cells).2 (step + 1) hinv2 hq2 hfuel2
      refine ⟨c1, c2, c3, c4, by omega, ?_⟩
      intro p v h
      exact c6 p v (hmono p v h)

end InfectLoop

section InfectAssembly

/-- The bounded table region is 4-connected: a set closed under in-bounds
neighbour steps that contains one in-bounds cell contains them all. -/
theorem infect_connected (R C : ℕ) (S : ℤ × ℤ → Prop)
    (hclosed : ∀ p, infectInBounds R C p → S p → ∀ x ∈ infectNbrs p,
      infectInBounds R C x → S x) :
    ∀ (n : ℕ) (p q : ℤ × ℤ), (p.1 - q.1).natAbs + (p.2 - q.2).natAbs = n →
      infectInBounds R C p → infectInBounds R C q → S p → S q := by
  intro n
  induction n using Nat.strong_induction_on with
  | _ n ih =>
    intro p q hn hp hq hSp
    by_cases hpq : p = q
    · rw [← hpq]
      exact hSp
    · obtain ⟨hb1, hb2, hb3, hb4⟩ := hp
      obtain ⟨hc1, hc2, hc3, hc4⟩ := hq
      rcases lt_trichotomy p.1 q.1 with h | h | h
      · have hmem : ((p.1 + 1, p.2) : ℤ × ℤ) ∈ infectNbrs p := by
          simp [infectNbrs]
        have hbnd : infectInBounds R C (p.1 + 1, p.2) := ⟨by omega, by omega, hb3, hb4⟩
        have hS : S (p.1 + 1, p.2) := hclosed p ⟨hb1, hb2, hb3, hb4⟩ hSp _ hmem hbnd
        exact ih ((p.1 + 1 - q.1).natAbs + (p.2 - q.2).natAbs) (by omega)
          (p.1 + 1, p.2) q rfl hbnd ⟨hc1, hc2, hc3, hc4⟩ hS
      · rcases lt_trichotomy p.2 q.2 with h2 | h2 | h2
        · have hmem : ((p.1, p.2 + 1) : ℤ × ℤ) ∈ infectNbrs p := by
            simp [infectNbrs]
          have hbnd : infectInBounds R C (p.1, p.2 + 1) := ⟨hb1, hb2, by omega, by omega⟩
          have hS : S (p.1, p.2 + 1) := hclosed p ⟨hb1, hb2, hb3, hb4⟩ hSp _ hmem hbnd
          exact ih ((p.1 - q.1).natAbs + (p.2 + 1 - q.2).natAbs) (by omega)
            (p.1, p.2 + 1) q rfl hbnd ⟨hc1, hc2, hc3, hc4⟩ hS
        · exact absurd (Prod.ext h h2) hpq
        · have hmem : ((p.1, p.2 - 1) : ℤ × ℤ) ∈ infectNbrs p := by
            simp [infectNbrs]
          have hbnd : infectInBounds R C (p.1, p.2 - 1) := ⟨hb1, hb2, by omega, by omega⟩
          have hS : S (p.1, p.2 - 1) := hclosed p ⟨hb1, hb2, hb3, hb4⟩ hSp _ hmem hbnd
          exact ih ((p.1 - q.1).natAbs + (p.2 - 1 - q.2).natAbs) (by omega)
            (p.1, p.2 - 1) q rfl hbnd ⟨hc1, hc2, hc3, hc4⟩ hS
      · have hmem : ((p.1 - 1, p.2) : ℤ × ℤ) ∈ infectNbrs p := by
          simp [infectNbrs]
        have hbnd : infectInBounds R C (p.1 - 1, p.2) := ⟨by omega, by omega, hb3, hb4⟩
        have hS : S (p.1 - 1, p.2) := hclosed p ⟨hb1, hb2, hb3, hb4⟩ hSp _ hmem hbnd
        exact ih ((p.1 - 1 - q.1).natAbs + (p.2 - q.2).natAbs) (by omega)
          (p.1 - 1, p.2) q rfl hbnd ⟨hc1, hc2, hc3, hc4⟩ hS

theorem infectSeedCoord_inBounds {R C n : ℕ} (hn : n < R * C) :
    infectInBounds R C (infectSeedCoord C n) := by
  have hC : 0 < C := by
    by_contra hc
    push_neg at hc
    interval_cases C
    omega
  have h1 : n / C < R := Nat.div_lt_of_lt_mul (lt_of_lt_of_eq hn (Nat.mul_comm R C))
  have h2 : n % C < C := Nat.mod_lt _ hC
  refine ⟨?_, ?_, ?_, ?_⟩
  · show (-1 : ℤ) ≤ ((n / C : ℕ) : ℤ)
    exact le_trans (by norm_num) (Int.natCast_nonneg _)
  · show ((n / C : ℕ) : ℤ) ≤ (R : ℤ)
    exact_mod_cast h1.le
  · show (-1 : ℤ) ≤ ((n % C : ℕ) : ℤ)
    exact le_trans (by norm_num) (Int.natCast_nonneg _)
  · show ((n % C : ℕ) : ℤ) ≤ (C : ℤ)
    exact_mod_cast h2.le

theorem infectSeedCells_some {C : ℕ} {seeds : List ℕ} {p : ℤ × ℤ} {v : ℕ}
    (h : infectSeedCells C seeds p = some v) :
    v = 0 ∧ ∃ n ∈ seeds, infectSeedCoord C n = p := by
  rw [infectSeedCells] at h
  split at h
  · rename_i hany
    rcases List.any_eq_true.mp hany with ⟨n, hn, hcoord⟩
    exact ⟨(Option.some_inj.mp h).symm, n, hn, of_decide_eq_true hcoord⟩
  · exact Option.noConfusion h

theorem infectSeedCells_seed {C : ℕ} {seeds : List ℕ} {n : ℕ} (hn : n ∈ seeds) :
    infectSeedCells C seeds (infectSeedCoord C n) = some 0 := by
  rw [infectSeedCells, if_pos]
  exact List.any_eq_true.mpr ⟨n, hn, by simp⟩

/-- Main flood-fill facts: with at least one in-range seed, every in-bounds
table slot (grid plus border ring) ends up assigned; every assigned value `v`
satisfies `v + 2 ≤ final_counter`; the value `final_counter - 2` is assigned
somewhere; and the counter ends at least at 3. -/
theorem infect_core (R C : ℕ) (seeds : List ℕ)
    (hne : seeds ≠ []) (hb : ∀ n ∈ seeds, n < R * C) :
    (∀ p, infectInBounds R C p → infectCells R C seeds p ≠ none) ∧
    (∀ p v, infectCells R C seeds p = some v → infectInBounds R C p) ∧
    (∀ p v, infectCells R C seeds p = some v → v + 2 ≤ (infectRun R C seeds).2) ∧
    (∃ p, infectCells R C seeds p = some ((infectRun R C seeds).2 - 2)) ∧
    2 ≤ (infectRun R C seeds).2 := by
  obtain ⟨n0, rest, rfl⟩ : ∃ n0 rest, seeds = n0 :: rest := by
    cases seeds with
    | nil => exact absurd rfl hne
    | cons a l => exact ⟨a, l, rfl⟩
  have hn0 : n0 < R * C := hb n0 (List.mem_cons_self _ _)
  have hinv : InfectInv R C (infectSeedCells C (n0 :: rest))
      (infectSeedQueue C (n0 :: rest)) 1 := by
    refine ⟨?_, ?_, ?_, ?_, le_refl 1⟩
    · intro p v h
      rcases infectSeedCells_some h with ⟨_, n, hn, hcoord⟩
      rw [← hcoord]
      exact infectSeedCoord_inBounds (hb n hn)
    · intro p v h x hx _
      right
      rcases infectSeedCells_some h with ⟨_, n, hn, hcoord⟩
      rw [infectSeedQueue]
      exact List.mem_flatMap.mpr ⟨n, hn, by rw [hcoord]; exact hx⟩
    · intro p v h
      rcases infectSeedCells_some h with ⟨hv, _⟩
      omega
    · exact ⟨infectSeedCoord C n0,
        infectSeedCells_seed (List.mem_cons_self _ _)⟩
  have hqne : infectSeedQueue C (n0 :: rest) ≠ [] := by
    rw [infectSeedQueue, List.flatMap_cons]
    simp [infectNbrs]
  have hfuel : infectUnassigned R C (infectSeedCells C (n0 :: rest)) <
      infectFuel R C := by
    have h1 : infectUnassigned R C (infectSeedCells C (n0 :: rest)) ≤
        (infectDom R C).card := Finset.card_filter_le _ _
    rw [card_infectDom] at h1
    rw [infectFuel]
    exact Nat.lt_succ_of_le h1
  obtain ⟨c1, c2, c3, c4, c5, c6⟩ := infectLoop_spec (infectFuel R C)
    (infectSeedCells C (n0 :: rest)) (infectSeedQueue C (n0 :: rest)) 1 hinv hqne hfuel
  have hcover : ∀ p, infectInBounds R C p → infectCells R C (n0 :: rest) p ≠ none := by
    intro p hp
    have hseedS : (infectLoop R C (infectFuel R C) (infectSeedCells C (n0 :: rest))
        (infectSeedQueue C (n0 :: rest)) 1).1 (infectSeedCoord C n0) ≠ none := by
      rw [c6 _ 0 (infectSeedCells_seed (List.mem_cons_self _ _))]
      simp
    exact infect_connected R C
      (fun z => (infectLoop R C (infectFuel R C) (infectSeedCells C (n0 :: rest))
        (infectSeedQueue C (n0 :: rest)) 1).1 z ≠ none)
      (fun z hz hS x hx hxb => c2 z hS x hx hxb)
      (((infectSeedCoord C n0).1 - p.1).natAbs + ((infectSeedCoord C n0).2 - p.2).natAbs)
      (infectSeedCoord C n0) p rfl (infectSeedCoord_inBounds hn0) hp hseedS
  exact ⟨hcover, c1, c3, c4, c5⟩

/-! ## Claim C3: Infect coverage and max_step -/

/-- C3 counterexample: on a 1x1 grid with the single seed index 0
(`num_seeds = ceil(1/32 * 1) = 1`), the flood fill assigns step 0 to the
seed, step 1 to its four edge-ring neighbours, and step 2 to the four ring
corners; the largest step actually assigned is 2.  But the `while` loop runs
one further round that assigns nothing (every queued neighbour is already
assigned or out of bounds) and still increments `step`, so
`max_step = step - 1 = 3`, one more than the largest assigned step. -/
theorem C3_counterexample :
    infectMaxStep 1 1 [0] = 3 ∧
    (infectDom 1 1).sup (fun p => (infectCells 1 1 [0] p).getD 0) = 2 ∧
    infectMaxStep 1 1 [0] ≠
      (infectDom 1 1).sup (fun p => (infectCells 1 1 [0] p).getD 0) := by
  refine ⟨by decide, by decide, by decide⟩

/-- C3 (amended): on any finite grid with at least one seed (density > 0),
after construction every in-grid cell (indeed every cell of the grid plus the
border ring) holds a defined step value, and `max_step` equals the largest
step actually assigned by the flood fill PLUS ONE: the final loop round
assigns nothing but still increments the counter, so
`max_step = (largest assigned step) + 1`. -/
theorem C3_infect_coverage (row_ct column_ct : ℕ) (seeds : List ℕ)
    (hne : seeds ≠ []) (hb : ∀ n ∈ seeds, n < row_ct * column_ct) :
    (∀ r c : ℤ, 0 ≤ r → r < row_ct → 0 ≤ c → c < column_ct →
      infectCells row_ct column_ct seeds (r, c) ≠ none) ∧
    (∀ p v, infectCells row_ct column_ct seeds p = some v →
      v + 1 ≤ infectMaxStep row_ct column_ct seeds) ∧
    (∃ p, infectCells row_ct column_ct seeds p =
      some (infectMaxStep row_ct column_ct seeds - 1)) ∧
    1 ≤ infectMaxStep row_ct column_ct seeds := by
  obtain ⟨hcover, hin, hval, hmax, hct⟩ := infect_core row_ct column_ct seeds hne hb
  have hms : infectMaxStep row_ct column_ct seeds =
      (infectRun row_ct column_ct seeds).2 - 1 := rfl
  refine ⟨?_, ?_, ?_, by omega⟩
  · intro r c h0 h1 h0' h1'
    exact hcover (r, c) ⟨by omega, by omega, by omega, by omega⟩
  · intro p v h
    have := hval p v h
    omega
  · obtain ⟨p, hp⟩ := hmax
    refine ⟨p, ?_⟩
    have h2 : infectMaxStep row_ct column_ct seeds - 1 =
        (infectRun row_ct column_ct seeds).2 - 2 := by omega
    rw [h2]
    exact hp

/-- Witness for C3 at the concrete 1x1 grid with one seed. -/
theorem C3_witness :
    infectCells 1 1 [0] (0, 0) ≠ none ∧ 1 ≤ infectMaxStep 1 1 [0] := by
  have h := C3_infect_coverage 1 1 [0] (by decide) (by decide)
  exact ⟨h.1 0 0 (by decide) (by decide) (by decide) (by decide), h.2.2.2⟩

/-- The packaged Infect pattern satisfies the step invariant: every in-grid
cell holds an integer step in `[0, max_step]`. -/
theorem stepInv_infect {row_ct column_ct : ℕ} {seeds : List ℕ}
    (hne : seeds ≠ []) (hb : ∀ n ∈ seeds, n < row_ct * column_ct) :
    StepInv (InfectPatternP ℚ row_ct column_ct seeds) := by
  obtain ⟨hcover, hval, _, hpos⟩ := C3_infect_coverage row_ct column_ct seeds hne hb
  refine ⟨?_, ⟨(infectMaxStep row_ct column_ct seeds : ℤ), by
    show ((infectMaxStep row_ct column_ct seeds : ℕ) : ℚ) = _
    push_cast
    ring⟩, ?_⟩
  · show (0 : ℚ) ≤ ((infectMaxStep row_ct column_ct seeds : ℕ) : ℚ)
    positivity
  · intro r c h0 h1 h0' h1'
    have hne' := hcover r c h0 (by exact_mod_cast h1) h0' (by exact_mod_cast h1')
    rcases Option.ne_none_iff_exists.mp hne' with ⟨v, hv⟩
    have hvb := hval (r, c) v hv.symm
    refine ⟨⟨(v : ℤ), ?_⟩, ?_, ?_⟩
    · show (((infectCells row_ct column_ct seeds (r, c)).getD 0 : ℕ) : ℚ) = _
      rw [← hv]
      push_cast
      rfl
    · show (0 : ℚ) ≤ (((infectCells row_ct column_ct seeds (r, c)).getD 0 : ℕ) : ℚ)
      positivity
    · show (((infectCells row_ct column_ct seeds (r, c)).getD 0 : ℕ) : ℚ) ≤
        ((infectMaxStep row_ct column_ct seeds : ℕ) : ℚ)
      rw [← hv]
      have : v ≤ infectMaxStep row_ct column_ct seeds := by omega
      exact_mod_cast this

end InfectAssembly

/-- C2 (amended): `max_step >= cell(r, c)` (with cell values nonnegative
integers) holds for every in-grid cell of every INTEGER-step generator
(Row, Column, Diagonal, the Curtains, the Shutters, Diamond, Box, Random,
Infect) and is preserved by every composition of the order wrappers
Interlace (stride >= 1), Reverse, Mirror, Flip, Reflect.  It fails for the
real-valued-step Spiral generator under a wrapper (see the counterexample):
the wrappers' integer arithmetic (`floor`, `%`) does not bound real steps. -/
theorem C2_max_step_invariant :
    (∀ (ws : List Wrapper) (p : Pattern ℚ), (∀ w ∈ ws, w.strideOK) → StepInv p →
      StepInv (applyWrappers ws p)) ∧
    (∀ (row_ct column_ct : ℕ) (droop : ℚ) (rand : ℤ → ℚ), 1 ≤ row_ct → 0 ≤ droop →
      (∀ i, 0 ≤ rand i ∧ rand i < 1) →
      StepInv (RowPattern row_ct column_ct droop rand)) ∧
    (∀ (row_ct column_ct : ℕ) (droop : ℚ) (rand : ℤ → ℚ), 1 ≤ column_ct → 0 ≤ droop →
      (∀ i, 0 ≤ rand i ∧ rand i < 1) →
      StepInv (ColumnPattern row_ct column_ct droop rand)) ∧
    (∀ row_ct column_ct : ℕ, 1 ≤ row_ct → 1 ≤ column_ct →
      StepInv (DiagonalPattern (α := ℚ) row_ct column_ct)) ∧
    (∀ row_ct column_ct : ℕ, 1 ≤ row_ct → 1 ≤ column_ct →
      StepInv (RowCurtainPattern (α := ℚ) row_ct column_ct)) ∧
    (∀ row_ct column_ct : ℕ, 1 ≤ row_ct → 1 ≤ column_ct →
      StepInv (ColumnCurtainPattern (α := ℚ) row_ct column_ct)) ∧
    (∀ row_ct column_ct : ℕ, 1 ≤ row_ct → 1 ≤ column_ct →
      StepInv (DiagonalCurtainPattern (α := ℚ) row_ct column_ct)) ∧
    (∀ row_ct column_ct : ℕ, 1 ≤ row_ct →
      StepInv (RowShutterPattern (α := ℚ) row_ct column_ct)) ∧
    (∀ row_ct column_ct : ℕ, 1 ≤ column_ct →
      StepInv (ColumnShutterPattern (α := ℚ) row_ct column_ct)) ∧
    (∀ row_ct column_ct : ℕ, 1 ≤ row_ct → 1 ≤ column_ct →
      StepInv (MainDiagonalShutterPattern (α := ℚ) row_ct column_ct)) ∧
    (∀ row_ct column_ct : ℕ, 1 ≤ row_ct → 1 ≤ column_ct →
      StepInv (DiamondPattern (α := ℚ) row_ct column_ct)) ∧
    (∀ row_ct column_ct : ℕ, 1 ≤ row_ct → 1 ≤ column_ct →
      StepInv (BoxPattern (α := ℚ) row_ct column_ct)) ∧
    (∀ (row_ct column_ct : ℕ) (rand : ℤ → ℤ → ℚ),
      (∀ i j, 0 ≤ rand i j ∧ rand i j < 1) →
      StepInv (RandomPattern row_ct column_ct rand)) ∧
    (∀ (row_ct column_ct : ℕ) (seeds : List ℕ), seeds ≠ [] →
      (∀ n ∈ seeds, n < row_ct * column_ct) →
      StepInv (InfectPatternP ℚ row_ct column_ct seeds)) :=
  ⟨fun _ _ hws hp => stepInv_applyWrappers hws hp,
    fun _ _ _ _ hr hd hrand => stepInv_row hr hd hrand,
    fun _ _ _ _ hc hd hrand => stepInv_column hc hd hrand,
    fun _ _ hr hc => stepInv_diagonal hr hc,
    fun _ _ hr hc => stepInv_rowCurtain hr hc,
    fun _ _ hr hc => stepInv_columnCurtain hr hc,
    fun _ _ hr hc => stepInv_diagonalCurtain hr hc,
    fun _ _ hr => stepInv_rowShutter hr,
    fun _ _ hc => stepInv_columnShutter hc,
    fun _ _ hr hc => stepInv_mainDiagonalShutter hr hc,
    fun _ _ hr hc => stepInv_diamond hr hc,
    fun _ _ hr hc => stepInv_box hr hc,
    fun _ _ _ hrand => stepInv_random hrand,
    fun _ _ _ hne hb => stepInv_infect hne hb⟩

/-- Witness for C2: a concrete wrapper composition over a concrete integer
generator satisfies the invariant. -/
theorem C2_witness :
    0 ≤ (applyWrappers [Wrapper.reflected, Wrapper.reversed]
      (DiagonalPattern (α := ℚ) 2 3)).max_step :=
  (C2_max_step_invariant.1 [Wrapper.reflected, Wrapper.reversed]
    (DiagonalPattern (α := ℚ) 2 3) (by decide)
    (C2_max_step_invariant.2.2.2.1 2 3 (by norm_num) (by norm_num))).1

/-! ## trace_line (script.js 1431-1520): modified Bresenham line march -/

section TraceLine

/-- Main-axis-x loop (script.js 1491-1503).  Fuel only bounds the recursion;
the loop in the source exits via the bounding-box check, which the fuel
passed by `trace_line` strictly dominates (the main-axis coordinate moves one
cell per iteration). -/
def traceLoopX (dx dy : ℚ) (sa sb min_x max_x min_y max_y : ℤ) :
    ℕ → ℤ → ℤ → ℚ → List (ℤ × ℤ)
  | 0, _, _, _ => []
  | fuel + 1, a, b, err =>
    if min_x ≤ a ∧ a ≤ max_x ∧ min_y ≤ b ∧ b ≤ max_y then
      if 0 < err then
        (a, b) :: (a, b + sb) ::
          traceLoopX dx dy sa sb min_x max_x min_y max_y fuel (a + sa) (b + sb)
            (err - dx + dy)
      else
        (a, b) :: traceLoopX dx dy sa sb min_x max_x min_y max_y fuel (a + sa) b
          (err + dy)
    else []

/-- Main-axis-y loop (script.js 1505-1518). -/
def traceLoopY (dx dy : ℚ) (sa sb min_x max_x min_y max_y : ℤ) :
    ℕ → ℤ → ℤ → ℚ → List (ℤ × ℤ)
  | 0, _, _, _ => []
  | fuel + 1, a, b, err =>
    if min_x ≤ a ∧ a ≤ max_x ∧ min_y ≤ b ∧ b ≤ max_y then
      if 0 < err then
        (a, b) :: (a + sa, b) ::
          traceLoopY dx dy sa sb min_x max_x min_y max_y fuel (a + sa) (b + sb)
            (err - dy + dx)
      else
        (a, b) :: traceLoopY dx dy sa sb min_x max_x min_y max_y fuel a (b + sb)
          (err + dx)
    else []

/-- `trace_line(x0, y0, x1, y1)`: every grid cell the segment crosses, in
order, as the source's generator yields them. -/
def trace_line (x0 y0 x1 y1 : ℚ) : List (ℤ × ℤ) :=
  let dx0 := x1 - x0
  let dy0 := y1 - y0
  let a := ⌊x0⌋
  let b := ⌊y0⌋
  if dx0 = 0 ∧ dy0 = 0 then [(a, b)]
  else
    let sa : ℤ := if dx0 < 0 then -1 else 1
    let dx := if dx0 < 0 then -dx0 else dx0
    let ox := if dx0 < 0 then 1 - (1 - (x0 - (a : ℚ))) else 1 - (x0 - (a : ℚ))
    let offset_x := if ox = 0 then 1 else ox
    let sb : ℤ := if dy0 < 0 then -1 else 1
    let dy := if dy0 < 0 then -dy0 else dy0
    let oy := if dy0 < 0 then 1 - (1 - (y0 - (b : ℚ))) else 1 - (y0 - (b : ℚ))
    let offset_y := if oy = 0 then 1 else oy
    let err := dy * offset_x - dx * offset_y
    let min_x := ⌊min x0 x1⌋
    let max_x := ⌊max x0 x1⌋
    let min_y := ⌊min y0 y1⌋
    let max_y := ⌊max y0 y1⌋
    let fuel := ((max_x - min_x) + (max_y - min_y)).toNat + 2
    if dy < dx then
      traceLoopX dx dy sa sb min_x max_x min_y max_y fuel a b err
    else
      traceLoopY dx dy sa sb min_x max_x min_y max_y fuel a b (-err)

end TraceLine

/-! ## Growth profile (stamp) builder (script.js 1537-1604) -/

section GrowthProfile

/-- A particle opacity field: `alpha ax ay` models
`particle_pixels.data[(ax + ay * width) * 4 + 3]`. -/
structure Particle where
  width : ℕ
  height : ℕ
  alpha : ℤ → ℤ → ℕ

/-- `const pcx = particle_width / 2`. -/
def particleCenterX (P : Particle) : ℚ := (P.width : ℚ) / 2

def particleCenterY (P : Particle) : ℚ := (P.height : ℚ) / 2

/-- Pixel-center offset from the stamp center: `(px + 0.5) - mid_x` with
`mid_x = column_width * 3 / 2`. -/
def boxDx (column_width : ℕ) (px : ℕ) : ℚ :=
  ((px : ℚ) + 1 / 2) - (column_width : ℚ) * 3 / 2

def boxDy (row_height : ℕ) (py : ℕ) : ℚ :=
  ((py : ℚ) + 1 / 2) - (row_height : ℚ) * 3 / 2

/-- `scale = max(size_x / particle_width, size_y / particle_height)` with
`size_x = |dx * 2|`, `size_y = |dy * 2|`. -/
def boxScaleFactor (P : Particle) (cw rh px py : ℕ) : ℚ :=
  max (|boxDx cw px * 2| / (P.width : ℚ)) (|boxDy rh py * 2| / (P.height : ℚ))

/-- `const ix = pcx + dx / scale`. -/
def boxEntryX (P : Particle) (cw rh px py : ℕ) : ℚ :=
  particleCenterX P + boxDx cw px / boxScaleFactor P cw rh px py

/-- `const iy = pcx + dy / scale` — the source uses `pcx` here, not `pcy`
(script.js 1571); the embedding reproduces that. -/
def boxEntryY (P : Particle) (cw rh px py : ℕ) : ℚ :=
  particleCenterX P + boxDy rh py / boxScaleFactor P cw rh px py

def boxTrace (P : Particle) (cw rh px py : ℕ) : List (ℤ × ℤ) :=
  trace_line (boxEntryX P cw rh px py) (boxEntryY P cw rh px py)
    (particleCenterX P) (particleCenterY P)

/-- The hit search (script.js 1574-1595): first traced cell that is inside
the particle bitmap and at least half opaque. -/
def findHit (P : Particle) : List (ℤ × ℤ) → Option (ℤ × ℤ)
  | [] => none
  | (ax, ay) :: rest =>
    if (P.width : ℤ) ≤ ax ∨ (P.height : ℤ) ≤ ay then findHit P rest
    else if P.alpha ax ay < 128 then findHit P rest
    else some (ax, ay)

def boxHit (P : Particle) (cw rh px py : ℕ) : Option (ℤ × ℤ) :=
  findHit P (boxTrace P cw rh px py)

/-- `dist_to_entry2 = (ix - pcx)^2 + (iy - pcy)^2`. -/
def boxEntryDistSq (P : Particle) (cw rh px py : ℕ) : ℚ :=
  (boxEntryX P cw rh px py - particleCenterX P) ^ 2
    + (boxEntryY P cw rh px py - particleCenterY P) ^ 2

/-- `dist_to_hit2 = (ax - pcx)^2 + (ay - pcy)^2` for the found hit
(0 when the search found nothing; unused in that case). -/
def boxHitDistSq (P : Particle) (cw rh px py : ℕ) : ℚ :=
  match boxHit P cw rh px py with
  | some (ax, ay) =>
    ((ax : ℚ) - particleCenterX P) ^ 2 + ((ay : ℚ) - particleCenterY P) ^ 2
  | none => 0

/-- `hit_scale`: 0 if no opaque pixel was found, otherwise
`Math.sqrt(dist_to_entry2 / dist_to_hit2)`.  When the hit is exactly the
particle center the source divides a positive number by zero (IEEE infinity);
the real-valued model makes that divisor explicit via `boxHitDistSq`. -/
noncomputable def boxHitScale (P : Particle) (cw rh px py : ℕ) : ℝ :=
  match boxHit P cw rh px py with
  | some _ =>
    Real.sqrt ((boxEntryDistSq P cw rh px py : ℝ) / (boxHitDistSq P cw rh px py : ℝ))
  | none => 0

/-- One stamp table entry: 0 at the exact center (`scale == 0`), otherwise
`necessary_scale = scale * hit_scale` (script.js 1560-1598). -/
noncomputable def box_scale (P : Particle) (cw rh px py : ℕ) : ℝ :=
  if boxScaleFactor P cw rh px py = 0 then 0
  else (boxScaleFactor P cw rh px py : ℝ) * boxHitScale P cw rh px py

/-- `max_scale`: running maximum over the central cell region
(`row_height <= py < 2 * row_height`, `column_width <= px < 2 * column_width`),
starting from 0 (script.js 1538, 1601-1603). -/
noncomputable def max_scale (P : Particle) (cw rh : ℕ) : ℝ :=
  ((List.range rh).flatMap (fun dy => (List.range cw).map (fun dx =>
    box_scale P cw rh (cw + dx) (rh + dy)))).foldl max 0

end GrowthProfile

/-! ## Mask compositor (script.js 1523-1736) -/

section Compositor

variable {α : Type*} [LinearOrderedField α] [FloorRing α]

theorem le_foldl_max_init (xs : List α) (a : α) : a ≤ xs.foldl max a := by
  induction xs generalizing a with
  | nil => exact le_refl a
  | cons y ys ih => exact le_trans (le_max_left a y) (ih (max a y))

theorem le_foldl_max_mem {xs : List α} {x : α} (hx : x ∈ xs) (a : α) :
    x ≤ xs.foldl max a := by
  induction xs generalizing a with
  | nil => cases hx
  | cons y ys ih =>
    rcases List.mem_cons.mp hx with rfl | hmem
    · exact le_trans (le_max_right a x) (le_foldl_max_init ys (max a x))
    · exact ih hmem (max a y)

/-- `Math.ceil(width / column_ct)` (script.js 1527-1528), exact-arithmetic. -/
def ceil_div (a b : ℕ) : ℕ := (⌈(a : ℚ) / (b : ℚ)⌉).toNat

theorem le_ceil_div_mul (a b : ℕ) (hb : 0 < b) : a ≤ ceil_div a b * b := by
  rw [ceil_div]
  have hb' : (0 : ℚ) < (b : ℚ) := by exact_mod_cast hb
  have h1 : (a : ℚ) / (b : ℚ) ≤ ((⌈(a : ℚ) / (b : ℚ)⌉ : ℤ) : ℚ) := Int.le_ceil _
  have h2 : (a : ℚ) ≤ ((⌈(a : ℚ) / (b : ℚ)⌉ : ℤ) : ℚ) * (b : ℚ) :=
    (div_le_iff hb').mp h1
  have h3 : (0 : ℤ) ≤ ⌈(a : ℚ) / (b : ℚ)⌉ :=
    Int.ceil_nonneg (by positivity)
  have h4 : (((⌈(a : ℚ) / (b : ℚ)⌉).toNat : ℤ)) = ⌈(a : ℚ) / (b : ℚ)⌉ :=
    Int.toNat_of_nonneg h3
  have h5 : (a : ℤ) ≤ ⌈(a : ℚ) / (b : ℚ)⌉ * (b : ℤ) := by exact_mod_cast h2
  rw [← h4] at h5
  exact_mod_cast h5

theorem ceil_div_pos (a b : ℕ) (ha : 0 < a) (hb : 0 < b) : 0 < ceil_div a b := by
  by_contra h
  push_neg at h
  interval_cases hcd : ceil_div a b
  have := le_ceil_div_mul a b hb
  rw [hcd] at this
  omega

/-- The per-pixel `scales` array (script.js 1699-1722): for each stamp offset
`(drow, dcol)` whose source cell `(row + 1 - drow, col + 1 - dcol)` lies inside
the grid, the stamp sample plus the delay compensation term. -/
def mask_scales (gen : Pattern α) (delay : α) (bs : ℕ → ℕ → α) (ms : α)
    (cw rh x y : ℕ) : List α :=
  (List.range 3).flatMap (fun (drow : ℕ) =>
    (List.range 3).filterMap (fun (dcol : ℕ) =>
      if 0 ≤ ((y / rh : ℕ) : ℤ) + 1 - (drow : ℤ) ∧
          ((y / rh : ℕ) : ℤ) + 1 - (drow : ℤ) < (gen.row_ct : ℤ) ∧
          0 ≤ ((x / cw : ℕ) : ℤ) + 1 - (dcol : ℤ) ∧
          ((x / cw : ℕ) : ℤ) + 1 - (dcol : ℤ) < (gen.column_ct : ℤ) then
        some (bs (y % rh + rh * drow : ℕ) (x % cw + cw * dcol : ℕ)
          + (gen.cell (((y / rh : ℕ) : ℤ) + 1 - (drow : ℤ))
                (((x / cw : ℕ) : ℤ) + 1 - (dcol : ℤ))
              - gen.cell ((y / rh : ℕ) : ℤ) ((x / cw : ℕ) : ℤ)) * delay * ms)
      else none))

/-- `time = start_time + scale / max_scale` (script.js 1693, 1723-1724). -/
def mask_time (gen : Pattern α) (delay : α) (bs : ℕ → ℕ → α) (ms : α)
    (cw rh x y : ℕ) : α :=
  gen.cell ((y / rh : ℕ) : ℤ) ((x / cw : ℕ) : ℤ) * delay
    + listMin (mask_scales gen delay bs ms cw rh x y) / ms

/-- `total_time = generator.max_step * delay + 1` (script.js 1633). -/
def mask_total_time (gen : Pattern α) (delay : α) : α :=
  gen.max_step * delay + 1

/-- The raw per-pixel reveal value `value = time / total_time`
(script.js 1725), before channel encoding. -/
def mask_value (gen : Pattern α) (delay : α) (bs : ℕ → ℕ → α) (ms : α)
    (cw rh x y : ℕ) : α :=
  mask_time gen delay bs ms cw rh x y / mask_total_time gen delay

/-- A store into a `Uint8ClampedArray` of the (integral) value `Math.floor(v)`. -/
def byteOf (z : ℤ) : ℤ := max 0 (min 255 z)

/-- The three encoded channels (script.js 1727-1732):
`value *= 256; ch0 = floor(value); value = (value % 1) * 256; ...`. -/
def mask_channels (v : α) : ℤ × ℤ × ℤ :=
  (byteOf ⌊v * 256⌋,
   byteOf ⌊jsMod (v * 256) 1 * 256⌋,
   byteOf ⌊jsMod (jsMod (v * 256) 1 * 256) 1 * 256⌋)

end Compositor

section Pipeline

/-- The stamp table as sampled by the compositor: `box_scales[py][px]`. -/
noncomputable def generate_box_scales (P : Particle) (width height row_ct column_ct : ℕ) :
    ℕ → ℕ → ℝ :=
  fun py px =>
    box_scale P (ceil_div width column_ct) (ceil_div height row_ct) px py

/-- The raw reveal value of output pixel `(x, y)` in a full
`generate_particle_wipe_mask` run. -/
noncomputable def generate_value (P : Particle) (width height row_ct column_ct : ℕ)
    (delay : ℝ) (gen : Pattern ℝ) (x y : ℕ) : ℝ :=
  mask_value gen delay (generate_box_scales P width height row_ct column_ct)
    (max_scale P (ceil_div width column_ct) (ceil_div height row_ct))
    (ceil_div width column_ct) (ceil_div height row_ct) x y

/-- The encoded RGB bytes of output pixel `(x, y)` in a full run. -/
noncomputable def generate_channels (P : Particle) (width height row_ct column_ct : ℕ)
    (delay : ℝ) (gen : Pattern ℝ) (x y : ℕ) : ℤ × ℤ × ℤ :=
  mask_channels (generate_value P width height row_ct column_ct delay gen x y)

end Pipeline

/-! ## Delay-zero reduction of the compositor -/

section DelayZero

variable {α : Type*} [LinearOrderedField α] [FloorRing α]

/-- The generator-free part of the `scales` array: just the stamp samples
whose source cell lies inside the grid. -/
def flat_scales (R C : ℕ) (bs : ℕ → ℕ → α) (cw rh x y : ℕ) : List α :=
  (List.range 3).flatMap (fun (drow : ℕ) =>
    (List.range 3).filterMap (fun (dcol : ℕ) =>
      if 0 ≤ ((y / rh : ℕ) : ℤ) + 1 - (drow : ℤ) ∧
          ((y / rh : ℕ) : ℤ) + 1 - (drow : ℤ) < (R : ℤ) ∧
          0 ≤ ((x / cw : ℕ) : ℤ) + 1 - (dcol : ℤ) ∧
          ((x / cw : ℕ) : ℤ) + 1 - (dcol : ℤ) < (C : ℤ) then
        some (bs (y % rh + rh * drow : ℕ) (x % cw + cw * dcol : ℕ))
      else none))

theorem mask_scales_delay_zero (gen : Pattern α) (bs : ℕ → ℕ → α) (ms : α)
    (cw rh x y : ℕ) :
    mask_scales gen 0 bs ms cw rh x y
      = flat_scales gen.row_ct gen.column_ct bs cw rh x y := by
  simp only [mask_scales, flat_scales, mul_zero, zero_mul, add_zero]

theorem mask_value_delay_zero (gen : Pattern α) (bs : ℕ → ℕ → α) (ms : α)
    (cw rh x y : ℕ) :
    mask_value gen 0 bs ms cw rh x y
      = listMin (flat_scales gen.row_ct gen.column_ct bs cw rh x y) / ms := by
  unfold mask_value mask_time mask_total_time
  rw [mask_scales_delay_zero]
  simp only [mul_zero, zero_add, div_one]

end DelayZero

/-! ## Profile evaluation helpers -/

section ProfileLemmas

theorem boxHitScale_of_none {P : Particle} {cw rh px py : ℕ}
    (h : boxHit P cw rh px py = none) : boxHitScale P cw rh px py = 0 := by
  unfold boxHitScale
  rw [h]

theorem boxHitScale_of_hit {P : Particle} {cw rh px py : ℕ} {p : ℤ × ℤ}
    (h : boxHit P cw rh px py = some p) :
    boxHitScale P cw rh px py
      = Real.sqrt ((boxEntryDistSq P cw rh px py : ℝ)
          / (boxHitDistSq P cw rh px py : ℝ)) := by
  unfold boxHitScale
  rw [h]

theorem boxScaleFactor_nonneg (P : Particle) (cw rh px py : ℕ) :
    0 ≤ boxScaleFactor P cw rh px py :=
  le_trans (div_nonneg (abs_nonneg _) (Nat.cast_nonneg _)) (le_max_left _ _)

theorem box_scale_nonneg (P : Particle) (cw rh px py : ℕ) :
    0 ≤ box_scale P cw rh px py := by
  unfold box_scale
  split
  · exact le_refl 0
  · apply mul_nonneg
    · exact_mod_cast boxScaleFactor_nonneg P cw rh px py
    · cases hhit : boxHit P cw rh px py with
      | none => exact (boxHitScale_of_none hhit).ge
      | some p =>
        rw [boxHitScale_of_hit hhit]
        exact Real.sqrt_nonneg _

theorem box_scale_eval (P : Particle) (cw rh px py : ℕ) (p : ℤ × ℤ) (s e d : ℚ)
    (hs : boxScaleFactor P cw rh px py = s) (hs0 : ¬ s = 0)
    (hp : boxHit P cw rh px py = some p)
    (he : boxEntryDistSq P cw rh px py = e) (hd : boxHitDistSq P cw rh px py = d) :
    box_scale P cw rh px py = (s : ℝ) * Real.sqrt ((e : ℝ) / (d : ℝ)) := by
  unfold box_scale
  rw [if_neg (by rw [hs]; exact hs0), boxHitScale_of_hit hp, hs, he, hd]

theorem box_scale_le_of_ratio (P : Particle) (cw rh px py : ℕ)
    (hs : boxScaleFactor P cw rh px py = 2 / 3)
    (hd : 0 < boxHitDistSq P cw rh px py)
    (hratio : boxEntryDistSq P cw rh px py ≤ 9 * boxHitDistSq P cw rh px py) :
    box_scale P cw rh px py ≤ 2 := by
  unfold box_scale
  rw [if_neg (by rw [hs]; norm_num)]
  cases hhit : boxHit P cw rh px py with
  | none =>
    rw [boxHitScale_of_none hhit, mul_zero]
    norm_num
  | some p =>
    rw [boxHitScale_of_hit hhit, hs]
    have hdR : (0 : ℝ) < (boxHitDistSq P cw rh px py : ℝ) := by exact_mod_cast hd
    have hr : (boxEntryDistSq P cw rh px py : ℝ)
        / (boxHitDistSq P cw rh px py : ℝ) ≤ 9 := by
      rw [div_le_iff hdR]
      exact_mod_cast hratio
    have h9 : Real.sqrt 9 = 3 := by
      rw [show (9 : ℝ) = 3 ^ 2 by norm_num]
      exact Real.sqrt_sq (by norm_num)
    have hsq : Real.sqrt ((boxEntryDistSq P cw rh px py : ℝ)
        / (boxHitDistSq P cw rh px py : ℝ)) ≤ 3 := by
      calc Real.sqrt ((boxEntryDistSq P cw rh px py : ℝ)
            / (boxHitDistSq P cw rh px py : ℝ)) ≤ Real.sqrt 9 := Real.sqrt_le_sqrt hr
        _ = 3 := h9
    calc ((2 / 3 : ℚ) : ℝ) * Real.sqrt ((boxEntryDistSq P cw rh px py : ℝ)
          / (boxHitDistSq P cw rh px py : ℝ))
        ≤ ((2 / 3 : ℚ) : ℝ) * 3 := by
          apply mul_le_mul_of_nonneg_left hsq
          push_cast
          norm_num
      _ = 2 := by push_cast; norm_num

end ProfileLemmas

/-! ## Concrete stamp evaluation: fully-opaque 3x3 particle, 1x1 grid,
3x3 output (`column_width = row_height = 3`) -/

section OpaqueStamp

/-- A fully-opaque 3x3 particle bitmap. -/
def opaqueParticle3 : Particle := ⟨3, 3, fun _ _ => 255⟩

set_option maxRecDepth 4000 in
theorem opaque3_data_33 :
    boxScaleFactor opaqueParticle3 3 3 3 3 = 2 / 3 ∧
    boxHit opaqueParticle3 3 3 3 3 = some (0, 0) ∧
    boxEntryDistSq opaqueParticle3 3 3 3 3 = 9 / 2 ∧
    boxHitDistSq opaqueParticle3 3 3 3 3 = 9 / 2 := by
  norm_num [boxScaleFactor, boxHit, boxEntryDistSq, boxHitDistSq, boxTrace, findHit,
    boxEntryX, boxEntryY, particleCenterX, particleCenterY, boxDx, boxDy,
    opaqueParticle3, trace_line, traceLoopY, traceLoopX, min_def, max_def]

set_option maxRecDepth 4000 in
theorem opaque3_data_43 :
    boxScaleFactor opaqueParticle3 3 3 4 3 = 2 / 3 ∧
    boxEntryDistSq opaqueParticle3 3 3 4 3 = 9 / 4 ∧
    boxHitDistSq opaqueParticle3 3 3 4 3 = 5 / 2 := by
  norm_num [boxScaleFactor, boxHit, boxEntryDistSq, boxHitDistSq, boxTrace, findHit,
    boxEntryX, boxEntryY, particleCenterX, particleCenterY, boxDx, boxDy,
    opaqueParticle3, trace_line, traceLoopY, traceLoopX, min_def, max_def]

set_option maxRecDepth 4000 in
theorem opaque3_data_53 :
    boxScaleFactor opaqueParticle3 3 3 5 3 = 2 / 3 ∧
    boxHit opaqueParticle3 3 3 5 3 = some (2, 1) ∧
    boxEntryDistSq opaqueParticle3 3 3 5 3 = 9 / 2 ∧
    boxHitDistSq opaqueParticle3 3 3 5 3 = 1 / 2 := by
  norm_num [boxScaleFactor, boxHit, boxEntryDistSq, boxHitDistSq, boxTrace, findHit,
    boxEntryX, boxEntryY, particleCenterX, particleCenterY, boxDx, boxDy,
    opaqueParticle3, trace_line, traceLoopY, traceLoopX, min_def, max_def]

set_option maxRecDepth 4000 in
theorem opaque3_data_34 :
    boxScaleFactor opaqueParticle3 3 3 3 4 = 2 / 3 ∧
    boxEntryDistSq opaqueParticle3 3 3 3 4 = 9 / 4 ∧
    boxHitDistSq opaqueParticle3 3 3 3 4 = 5 / 2 := by
  norm_num [boxScaleFactor, boxHit, boxEntryDistSq, boxHitDistSq, boxTrace, findHit,
    boxEntryX, boxEntryY, particleCenterX, particleCenterY, boxDx, boxDy,
    opaqueParticle3, trace_line, traceLoopY, traceLoopX, min_def, max_def]

set_option maxRecDepth 4000 in
theorem opaque3_data_44 : boxScaleFactor opaqueParticle3 3 3 4 4 = 0 := by
  norm_num [boxScaleFactor, boxDx, boxDy, opaqueParticle3]

set_option maxRecDepth 4000 in
theorem opaque3_data_54 :
    boxScaleFactor opaqueParticle3 3 3 5 4 = 2 / 3 ∧
    boxEntryDistSq opaqueParticle3 3 3 5 4 = 9 / 4 ∧
    boxHitDistSq opaqueParticle3 3 3 5 4 = 1 / 2 := by
  norm_num [boxScaleFactor, boxHit, boxEntryDistSq, boxHitDistSq, boxTrace, findHit,
    boxEntryX, boxEntryY, particleCenterX, particleCenterY, boxDx, boxDy,
    opaqueParticle3, trace_line, traceLoopY, traceLoopX, min_def, max_def]

set_option maxRecDepth 4000 in
theorem opaque3_data_35 :
    boxScaleFactor opaqueParticle3 3 3 3 5 = 2 / 3 ∧
    boxEntryDistSq opaqueParticle3 3 3 3 5 = 9 / 2 ∧
    boxHitDistSq opaqueParticle3 3 3 3 5 = 5 / 2 := by
  norm_num [boxScaleFactor, boxHit, boxEntryDistSq, boxHitDistSq, boxTrace, findHit,
    boxEntryX, boxEntryY, particleCenterX, particleCenterY, boxDx, boxDy,
    opaqueParticle3, trace_line, traceLoopY, traceLoopX, min_def, max_def]

set_option maxRecDepth 4000 in
theorem opaque3_data_45 :
    boxScaleFactor opaqueParticle3 3 3 4 5 = 2 / 3 ∧
    boxEntryDistSq opaqueParticle3 3 3 4 5 = 9 / 4 ∧
    boxHitDistSq opaqueParticle3 3 3 4 5 = 1 / 2 := by
  norm_num [boxScaleFactor, boxHit, boxEntryDistSq, boxHitDistSq, boxTrace, findHit,
    boxEntryX, boxEntryY, particleCenterX, particleCenterY, boxDx, boxDy,
    opaqueParticle3, trace_line, traceLoopY, traceLoopX, min_def, max_def]

set_option maxRecDepth 4000 in
theorem opaque3_data_55 :
    boxScaleFactor opaqueParticle3 3 3 5 5 = 2 / 3 ∧
    boxEntryDistSq opaqueParticle3 3 3 5 5 = 9 / 2 ∧
    boxHitDistSq opaqueParticle3 3 3 5 5 = 1 / 2 := by
  norm_num [boxScaleFactor, boxHit, boxEntryDistSq, boxHitDistSq, boxTrace, findHit,
    boxEntryX, boxEntryY, particleCenterX, particleCenterY, boxDx, boxDy,
    opaqueParticle3, trace_line, traceLoopY, traceLoopX, min_def, max_def]

theorem box_scale_opaque3_33 : box_scale opaqueParticle3 3 3 3 3 = 2 / 3 := by
  rw [box_scale_eval opaqueParticle3 3 3 3 3 (0, 0) (2 / 3) (9 / 2) (9 / 2)
    opaque3_data_33.1 (by norm_num) opaque3_data_33.2.1 opaque3_data_33.2.2.1
    opaque3_data_33.2.2.2]
  have h1 : ((9 / 2 : ℚ) : ℝ) / ((9 / 2 : ℚ) : ℝ) = 1 := by
    push_cast
    norm_num
  rw [h1, Real.sqrt_one]
  push_cast
  norm_num

theorem box_scale_opaque3_53 : box_scale opaqueParticle3 3 3 5 3 = 2 := by
  rw [box_scale_eval opaqueParticle3 3 3 5 3 (2, 1) (2 / 3) (9 / 2) (1 / 2)
    opaque3_data_53.1 (by norm_num) opaque3_data_53.2.1 opaque3_data_53.2.2.1
    opaque3_data_53.2.2.2]
  have h1 : ((9 / 2 : ℚ) : ℝ) / ((1 / 2 : ℚ) : ℝ) = 9 := by
    push_cast
    norm_num
  have h9 : Real.sqrt 9 = 3 := by
    rw [show (9 : ℝ) = 3 ^ 2 by norm_num]
    exact Real.sqrt_sq (by norm_num)
  rw [h1, h9]
  push_cast
  norm_num

theorem max_scale_opaque3 : max_scale opaqueParticle3 3 3 = 2 := by
  have hL : max_scale opaqueParticle3 3 3 =
      [box_scale opaqueParticle3 3 3 3 3, box_scale opaqueParticle3 3 3 4 3,
       box_scale opaqueParticle3 3 3 5 3, box_scale opaqueParticle3 3 3 3 4,
       box_scale opaqueParticle3 3 3 4 4, box_scale opaqueParticle3 3 3 5 4,
       box_scale opaqueParticle3 3 3 3 5, box_scale opaqueParticle3 3 3 4 5,
       box_scale opaqueParticle3 3 3 5 5].foldl max 0 := rfl
  rw [hL]
  refine foldl_max_eq ?_ (by norm_num) ?_
  · rw [← box_scale_opaque3_53]
    exact List.mem_cons_of_mem _ (List.mem_cons_of_mem _ (List.mem_cons_self _ _))
  · intro z hz
    simp only [List.mem_cons, List.not_mem_nil, or_false] at hz
    rcases hz with rfl | rfl | rfl | rfl | rfl | rfl | rfl | rfl | rfl
    · rw [box_scale_opaque3_33]; norm_num
    · exact box_scale_le_of_ratio _ _ _ _ _ opaque3_data_43.1
        (by rw [opaque3_data_43.2.2]; norm_num)
        (by rw [opaque3_data_43.2.1, opaque3_data_43.2.2]; norm_num)
    · rw [box_scale_opaque3_53]
    · exact box_scale_le_of_ratio _ _ _ _ _ opaque3_data_34.1
        (by rw [opaque3_data_34.2.2]; norm_num)
        (by rw [opaque3_data_34.2.1, opaque3_data_34.2.2]; norm_num)
    · rw [show box_scale opaqueParticle3 3 3 4 4 = 0 by
        unfold box_scale; rw [if_pos opaque3_data_44]]
      norm_num
    · exact box_scale_le_of_ratio _ _ _ _ _ opaque3_data_54.1
        (by rw [opaque3_data_54.2.2]; norm_num)
        (by rw [opaque3_data_54.2.1, opaque3_data_54.2.2]; norm_num)
    · exact box_scale_le_of_ratio _ _ _ _ _ opaque3_data_35.1
        (by rw [opaque3_data_35.2.2]; norm_num)
        (by rw [opaque3_data_35.2.1, opaque3_data_35.2.2]; norm_num)
    · exact box_scale_le_of_ratio _ _ _ _ _ opaque3_data_45.1
        (by rw [opaque3_data_45.2.2]; norm_num)
        (by rw [opaque3_data_45.2.1, opaque3_data_45.2.2]; norm_num)
    · exact box_scale_le_of_ratio _ _ _ _ _ opaque3_data_55.1
        (by rw [opaque3_data_55.2.2]; norm_num)
        (by rw [opaque3_data_55.2.1, opaque3_data_55.2.2]; norm_num)

end OpaqueStamp

/-! ## C4: growth-profile values -/

section ClaimC4

/-- A 2x2 particle opaque only at pixel (1, 1) — which is exactly the
particle's center point `(pcx, pcy) = (1, 1)`. -/
def centerDotParticle : Particle := ⟨2, 2, fun ax ay => if ax = 1 ∧ ay = 1 then 255 else 0⟩

/-- C4 counterexample: with `column_width = row_height = 1` (e.g. a 2x2 output
over a 2x2 grid) and the center-dot particle, the stamp entry at `(px, py) =
(0, 0)` takes the non-special branch (`scale = 1 != 0`), its hit search lands
exactly on the particle center, so `dist_to_hit2 = 0` while
`dist_to_entry2 = 2`: the source computes
`hit_scale = Math.sqrt(2 / 0) = Infinity`, and the stamp value
`necessary_scale = 1 * Infinity` is not finite, refuting the claim that every
growth-profile value is finite. -/
theorem C4_counterexample :
    boxHit centerDotParticle 1 1 0 0 = some (1, 1) ∧
    boxHitDistSq centerDotParticle 1 1 0 0 = 0 ∧
    boxEntryDistSq centerDotParticle 1 1 0 0 = 2 ∧
    ¬ boxScaleFactor centerDotParticle 1 1 0 0 = 0 := by
  norm_num [boxScaleFactor, boxHit, boxEntryDistSq, boxHitDistSq, boxTrace, findHit,
    boxEntryX, boxEntryY, particleCenterX, particleCenterY, boxDx, boxDy,
    centerDotParticle, trace_line, traceLoopY, traceLoopX, min_def, max_def]

/-- C4 (amended): every growth-profile value is non-negative, and for odd
`column_width = 2u+1`, `row_height = 2v+1` the tile pixel at the exact center
of the central cell (`px = 3u+1`, `py = 3v+1`, where `dx = dy = 0`) has value
0, for every particle opacity field.  The finiteness half of the original
claim is refuted by `C4_counterexample`: a hit landing exactly on the particle
center makes the source divide a positive squared distance by zero. -/
theorem C4_profile_nonneg_center (P : Particle) (cw rh px py u v : ℕ) :
    0 ≤ box_scale P cw rh px py ∧
    box_scale P (2 * u + 1) (2 * v + 1) (3 * u + 1) (3 * v + 1) = 0 := by
  constructor
  · exact box_scale_nonneg P cw rh px py
  · have hdx : boxDx (2 * u + 1) (3 * u + 1) = 0 := by
      unfold boxDx
      push_cast
      ring
    have hdy : boxDy (2 * v + 1) (3 * v + 1) = 0 := by
      unfold boxDy
      push_cast
      ring
    have hsf : boxScaleFactor P (2 * u + 1) (2 * v + 1) (3 * u + 1) (3 * v + 1) = 0 := by
      unfold boxScaleFactor
      rw [hdx, hdy]
      norm_num
    unfold box_scale
    rw [if_pos hsf]

end ClaimC4

/-! ## C7 and C10: the delay = 0 compositor -/

section ClaimC7C10

/-- C7 (amended): at `delay = 0` the compositor's `total_time` is 1, but the
reveal value of a pixel is `min(scales) / max_scale` — the stamp's growth
gradient, not uniformly zero.  The original uniform-zero claim is refuted at a
concrete pixel by `C7_counterexample`. -/
theorem C7_delay_zero_mask (P : Particle) (width height row_ct column_ct : ℕ)
    (gen : Pattern ℝ) (x y : ℕ) :
    generate_value P width height row_ct column_ct 0 gen x y
      = listMin (flat_scales gen.row_ct gen.column_ct
          (generate_box_scales P width height row_ct column_ct)
          (ceil_div width column_ct) (ceil_div height row_ct) x y)
        / max_scale P (ceil_div width column_ct) (ceil_div height row_ct) ∧
    mask_total_time gen (0 : ℝ) = 1 := by
  constructor
  · unfold generate_value
    exact mask_value_delay_zero gen
      (generate_box_scales P width height row_ct column_ct)
      (max_scale P (ceil_div width column_ct) (ceil_div height row_ct))
      (ceil_div width column_ct) (ceil_div height row_ct) x y
  · unfold mask_total_time
    rw [mul_zero, zero_add]

/-- C7 counterexample: grid 1x1, delay 0, fully-opaque 3x3 particle filling
its (3x3) cell.  Output pixel (0, 0) samples the stamp at (3, 3), giving
`(2/3) / max_scale = (2/3) / 2 = 1/3`, which encodes to RGB `(85, 85, 85)`,
not zero: the delay-0 mask is the stamp gradient, not uniformly zero. -/
theorem C7_counterexample :
    generate_channels opaqueParticle3 3 3 1 1 0 (DiagonalPattern (α := ℝ) 1 1) 0 0
      = (85, 85, 85) ∧
    ¬ generate_channels opaqueParticle3 3 3 1 1 0 (DiagonalPattern (α := ℝ) 1 1) 0 0
      = (0, 0, 0) := by
  have hcd : ceil_div 3 1 = 3 := by
    unfold ceil_div
    norm_num
    decide
  have hval : generate_value opaqueParticle3 3 3 1 1 0 (DiagonalPattern (α := ℝ) 1 1) 0 0
      = 1 / 3 := by
    rw [generate_value, mask_value_delay_zero, hcd]
    have hflat : flat_scales (DiagonalPattern (α := ℝ) 1 1).row_ct
        (DiagonalPattern (α := ℝ) 1 1).column_ct
        (generate_box_scales opaqueParticle3 3 3 1 1) 3 3 0 0
        = [generate_box_scales opaqueParticle3 3 3 1 1 3 3] := rfl
    rw [hflat]
    have hbs : generate_box_scales opaqueParticle3 3 3 1 1 3 3
        = box_scale opaqueParticle3 3 3 3 3 := by
      show box_scale opaqueParticle3 (ceil_div 3 1) (ceil_div 3 1) 3 3
        = box_scale opaqueParticle3 3 3 3 3
      rw [hcd]
    have hmin : listMin [generate_box_scales opaqueParticle3 3 3 1 1 3 3]
        = generate_box_scales opaqueParticle3 3 3 1 1 3 3 := rfl
    rw [hmin, hbs, box_scale_opaque3_33, max_scale_opaque3]
    push_cast
    norm_num
  have hf : ⌊(1 / 3 : ℝ) * 256⌋ = 85 := by
    rw [Int.floor_eq_iff]
    constructor <;> norm_num
  have hmod : jsMod ((1 / 3 : ℝ) * 256) 1 = 1 / 3 := by
    rw [jsMod, div_one, jsTrunc_of_nonneg (by norm_num : (0 : ℝ) ≤ (1 / 3 : ℝ) * 256), hf]
    norm_num
  have hch : mask_channels ((1 : ℝ) / 3) = (85, 85, 85) := by
    rw [mask_channels, hmod, hf]
    rw [hmod, hf]
    norm_num [byteOf]
  rw [generate_channels, hval]
  exact ⟨hch, by rw [hch]; decide⟩

/-- C10: at `delay = 0` the encoded output pixel is independent of the
pattern generator — any two generators over the same grid shape give
identical pixel buffers, because the generator-dependent terms of the
compositor are all multiplied by `delay`. -/
theorem C10_delay_zero_generator_independent (P : Particle)
    (width height row_ct column_ct : ℕ) (g1 g2 : Pattern ℝ) (x y : ℕ)
    (h1r : g1.row_ct = row_ct) (h1c : g1.column_ct = column_ct)
    (h2r : g2.row_ct = row_ct) (h2c : g2.column_ct = column_ct) :
    generate_channels P width height row_ct column_ct 0 g1 x y
      = generate_channels P width height row_ct column_ct 0 g2 x y := by
  unfold generate_channels generate_value
  rw [mask_value_delay_zero, mask_value_delay_zero, h1r, h1c, h2r, h2c]

theorem C10_witness :
    generate_channels opaqueParticle3 3 3 1 1 0 (DiagonalPattern (α := ℝ) 1 1) 0 0
      = generate_channels opaqueParticle3 3 3 1 1 0
          (PatternReversed (DiagonalPattern (α := ℝ) 1 1)) 0 0 :=
  C10_delay_zero_generator_independent opaqueParticle3 3 3 1 1
    (DiagonalPattern (α := ℝ) 1 1) (PatternReversed (DiagonalPattern (α := ℝ) 1 1)) 0 0
    rfl rfl rfl rfl

end ClaimC7C10

/-! ## C1: bounds on the compositor's reveal value -/

section ClaimC1Helpers

variable {α : Type*} [LinearOrderedField α] [FloorRing α]

theorem ceil_div_three_one : ceil_div 3 1 = 3 := by
  unfold ceil_div
  norm_num
  decide

/-- The pixel's own cell (`drow = dcol = 1`) always contributes its bare stamp
sample to `scales`: the compensation term vanishes since `scale_step = step`. -/
theorem mask_scales_own_mem (gen : Pattern α) (delay : α) (bs : ℕ → ℕ → α)
    (ms : α) (cw rh x y : ℕ)
    (hrow : y / rh < gen.row_ct) (hcol : x / cw < gen.column_ct) :
    bs (y % rh + rh) (x % cw + cw) ∈ mask_scales gen delay bs ms cw rh x y := by
  have hrowZ : ((y / rh : ℕ) : ℤ) < (gen.row_ct : ℤ) := by exact_mod_cast hrow
  have hcolZ : ((x / cw : ℕ) : ℤ) < (gen.column_ct : ℤ) := by exact_mod_cast hcol
  have hrowZ0 : (0 : ℤ) ≤ ((y / rh : ℕ) : ℤ) := Int.natCast_nonneg _
  have hcolZ0 : (0 : ℤ) ≤ ((x / cw : ℕ) : ℤ) := Int.natCast_nonneg _
  unfold mask_scales
  apply List.mem_flatMap.mpr
  refine ⟨1, by decide, ?_⟩
  apply List.mem_filterMap.mpr
  refine ⟨1, by decide, ?_⟩
  rw [if_pos ⟨by omega, by omega, by omega, by omega⟩]
  simp only [Nat.cast_one, add_sub_cancel_right, sub_self, zero_mul, mul_one,
    add_zero]

/-- Every element of `scales` is at least `-(step * delay * max_scale)`:
stamp samples are non-negative and neighbouring steps are non-negative. -/
theorem mask_scales_lower (gen : Pattern α) (delay : α) (bs : ℕ → ℕ → α)
    (ms : α) (cw rh x y : ℕ)
    (hdelay : 0 ≤ delay) (hms : 0 ≤ ms)
    (hbs : ∀ i j, 0 ≤ bs i j)
    (hcell : ∀ r c : ℤ, 0 ≤ r → r < (gen.row_ct : ℤ) → 0 ≤ c →
      c < (gen.column_ct : ℤ) → 0 ≤ gen.cell r c) :
    ∀ v ∈ mask_scales gen delay bs ms cw rh x y,
      -(gen.cell ((y / rh : ℕ) : ℤ) ((x / cw : ℕ) : ℤ) * delay * ms) ≤ v := by
  intro v hv
  unfold mask_scales at hv
  obtain ⟨drow, hdrow, hv2⟩ := List.mem_flatMap.mp hv
  obtain ⟨dcol, hdcol, hv3⟩ := List.mem_filterMap.mp hv2
  split_ifs at hv3 with hcond
  · injection hv3 with hv4
    obtain ⟨h1, h2, h3, h4⟩ := hcond
    have hs0 : 0 ≤ gen.cell (((y / rh : ℕ) : ℤ) + 1 - (drow : ℤ))
        (((x / cw : ℕ) : ℤ) + 1 - (dcol : ℤ)) := hcell _ _ h1 h2 h3 h4
    have hb0 := hbs (y % rh + rh * drow) (x % cw + cw * dcol)
    rw [← hv4]
    nlinarith [hb0, mul_nonneg (mul_nonneg hs0 hdelay) hms]

end ClaimC1Helpers

section ClaimC1

/-- C1 (amended): the source applies no clamping, but under the stated
non-degeneracy conditions — pixel inside the output, non-empty grid,
`delay >= 0`, a strictly positive stamp `max_scale`, no stamp-table hit
landing exactly on the particle center (`hfin`: every entry of the
`3*column_width x 3*row_height` stamp table with a hit has
`dist_to_hit2 != 0`), and a generator whose steps lie in `[0, max_step]` —
the raw reveal value already lies in `[0, 1]`, so no negative value reaches
the encoder and clamping would be a no-op.  The `hfin` divisor condition is
essential, not just `max_scale > 0`: a hit at the exact particle center makes
the source compute `hit_scale = Math.sqrt(positive / 0) = Infinity`, so
`max_scale = Infinity`, and at `delay = 0` the compensation term
`0 * Infinity = NaN` poisons every sampled scale, so NaN reaches the encoder
even though all other stamp entries are finite and positive.  Under `hfin`
every stamp entry is a finite real and the exact model agrees with the
source's arithmetic.  Without `max_scale > 0` the source instead divides 0 by
0 (`C1_counterexample`). -/
theorem C1_value_bounds (P : Particle) (width height row_ct column_ct : ℕ)
    (delay : ℝ) (gen : Pattern ℝ) (x y : ℕ)
    (hgr : gen.row_ct = row_ct) (hgc : gen.column_ct = column_ct)
    (hx : x < width) (hy : y < height) (hR : 0 < row_ct) (hC : 0 < column_ct)
    (hdelay : 0 ≤ delay)
    (hms : 0 < max_scale P (ceil_div width column_ct) (ceil_div height row_ct))
    (hfin : ∀ px py : ℕ, ∀ q : ℤ × ℤ, px < 3 * ceil_div width column_ct →
      py < 3 * ceil_div height row_ct →
      boxHit P (ceil_div width column_ct) (ceil_div height row_ct) px py = some q →
      boxHitDistSq P (ceil_div width column_ct) (ceil_div height row_ct) px py ≠ 0)
    (hstep : ∀ r c : ℤ, 0 ≤ r → r < (row_ct : ℤ) → 0 ≤ c → c < (column_ct : ℤ) →
      0 ≤ gen.cell r c ∧ gen.cell r c ≤ gen.max_step) :
    0 ≤ generate_value P width height row_ct column_ct delay gen x y ∧
    generate_value P width height row_ct column_ct delay gen x y ≤ 1 := by
  have hw : 0 < width := lt_of_le_of_lt (Nat.zero_le x) hx
  have hh : 0 < height := lt_of_le_of_lt (Nat.zero_le y) hy
  have hcw : 0 < ceil_div width column_ct := ceil_div_pos width column_ct hw hC
  have hrh : 0 < ceil_div height row_ct := ceil_div_pos height row_ct hh hR
  have hrow : y / ceil_div height row_ct < row_ct := by
    rw [Nat.div_lt_iff_lt_mul hrh]
    calc y < height := hy
      _ ≤ ceil_div height row_ct * row_ct := le_ceil_div_mul height row_ct hR
      _ = row_ct * ceil_div height row_ct := Nat.mul_comm _ _
  have hcol : x / ceil_div width column_ct < column_ct := by
    rw [Nat.div_lt_iff_lt_mul hcw]
    calc x < width := hx
      _ ≤ ceil_div width column_ct * column_ct := le_ceil_div_mul width column_ct hC
      _ = column_ct * ceil_div width column_ct := Nat.mul_comm _ _
  have hrowZ0 : (0 : ℤ) ≤ ((y / ceil_div height row_ct : ℕ) : ℤ) :=
    Int.natCast_nonneg _
  have hcolZ0 : (0 : ℤ) ≤ ((x / ceil_div width column_ct : ℕ) : ℤ) :=
    Int.natCast_nonneg _
  have hrowZ : ((y / ceil_div height row_ct : ℕ) : ℤ) < (row_ct : ℤ) := by
    exact_mod_cast hrow
  have hcolZ : ((x / ceil_div width column_ct : ℕ) : ℤ) < (column_ct : ℤ) := by
    exact_mod_cast hcol
  have ht := hstep _ _ hrowZ0 hrowZ hcolZ0 hcolZ
  have hmaxstep0 : 0 ≤ gen.max_step := le_trans ht.1 ht.2
  have htotal : (0 : ℝ) < mask_total_time gen delay := by
    unfold mask_total_time
    nlinarith [mul_nonneg hmaxstep0 hdelay]
  have hbs0 : ∀ i j, 0 ≤ generate_box_scales P width height row_ct column_ct i j := by
    intro i j
    exact box_scale_nonneg P _ _ j i
  have hmem := mask_scales_own_mem gen delay
    (generate_box_scales P width height row_ct column_ct)
    (max_scale P (ceil_div width column_ct) (ceil_div height row_ct))
    (ceil_div width column_ct) (ceil_div height row_ct) x y
    (by rw [hgr]; exact hrow) (by rw [hgc]; exact hcol)
  have hne : mask_scales gen delay
      (generate_box_scales P width height row_ct column_ct)
      (max_scale P (ceil_div width column_ct) (ceil_div height row_ct))
      (ceil_div width column_ct) (ceil_div height row_ct) x y ≠ [] :=
    List.ne_nil_of_mem hmem
  have hlower := mask_scales_lower gen delay
    (generate_box_scales P width height row_ct column_ct)
    (max_scale P (ceil_div width column_ct) (ceil_div height row_ct))
    (ceil_div width column_ct) (ceil_div height row_ct) x y
    hdelay hms.le hbs0
    (fun r c h1 h2 h3 h4 => (hstep r c h1 (by rw [hgr] at h2; exact h2) h3
      (by rw [hgc] at h4; exact h4)).1)
  have hminlow := le_listMin hne hlower
  -- the own sample is bounded by max_scale
  have hcentral_mem : box_scale P (ceil_div width column_ct) (ceil_div height row_ct)
      (ceil_div width column_ct + x % ceil_div width column_ct)
      (ceil_div height row_ct + y % ceil_div height row_ct)
      ∈ (List.range (ceil_div height row_ct)).flatMap
          (fun dy => (List.range (ceil_div width column_ct)).map
            (fun dx => box_scale P (ceil_div width column_ct) (ceil_div height row_ct)
              (ceil_div width column_ct + dx) (ceil_div height row_ct + dy))) := by
    apply List.mem_flatMap.mpr
    exact ⟨y % ceil_div height row_ct, List.mem_range.mpr (Nat.mod_lt y hrh),
      List.mem_map.mpr ⟨x % ceil_div width column_ct,
        List.mem_range.mpr (Nat.mod_lt x hcw), rfl⟩⟩
  have hcentral : box_scale P (ceil_div width column_ct) (ceil_div height row_ct)
      (ceil_div width column_ct + x % ceil_div width column_ct)
      (ceil_div height row_ct + y % ceil_div height row_ct)
      ≤ max_scale P (ceil_div width column_ct) (ceil_div height row_ct) :=
    le_foldl_max_mem hcentral_mem 0
  have hown_eq : generate_box_scales P width height row_ct column_ct
      (y % ceil_div height row_ct + ceil_div height row_ct)
      (x % ceil_div width column_ct + ceil_div width column_ct)
      = box_scale P (ceil_div width column_ct) (ceil_div height row_ct)
        (ceil_div width column_ct + x % ceil_div width column_ct)
        (ceil_div height row_ct + y % ceil_div height row_ct) := by
    unfold generate_box_scales
    rw [Nat.add_comm (x % ceil_div width column_ct) (ceil_div width column_ct),
      Nat.add_comm (y % ceil_div height row_ct) (ceil_div height row_ct)]
  have hminup : listMin (mask_scales gen delay
      (generate_box_scales P width height row_ct column_ct)
      (max_scale P (ceil_div width column_ct) (ceil_div height row_ct))
      (ceil_div width column_ct) (ceil_div height row_ct) x y)
      ≤ max_scale P (ceil_div width column_ct) (ceil_div height row_ct) :=
    le_trans (listMin_le_mem hmem) (le_trans (le_of_eq hown_eq) hcentral)
  unfold generate_value mask_value mask_time
  constructor
  · apply div_nonneg _ htotal.le
    have hdiv : -(gen.cell ((y / ceil_div height row_ct : ℕ) : ℤ)
          ((x / ceil_div width column_ct : ℕ) : ℤ) * delay
          * max_scale P (ceil_div width column_ct) (ceil_div height row_ct))
        / max_scale P (ceil_div width column_ct) (ceil_div height row_ct)
        = -(gen.cell ((y / ceil_div height row_ct : ℕ) : ℤ)
          ((x / ceil_div width column_ct : ℕ) : ℤ) * delay) := by
      field_simp
    nlinarith [(div_le_div_iff_of_pos_right hms).mpr hminlow, hdiv.symm.le, hdiv.le]
  · rw [div_le_one htotal]
    unfold mask_total_time
    have h1 : listMin (mask_scales gen delay
        (generate_box_scales P width height row_ct column_ct)
        (max_scale P (ceil_div width column_ct) (ceil_div height row_ct))
        (ceil_div width column_ct) (ceil_div height row_ct) x y)
        / max_scale P (ceil_div width column_ct) (ceil_div height row_ct) ≤ 1 :=
      (div_le_one hms).mpr hminup
    nlinarith [mul_le_mul_of_nonneg_right ht.2 hdelay]

end ClaimC1

theorem C1_witness :
    0 ≤ generate_value opaqueParticle3 3 3 1 1 0 (DiagonalPattern (α := ℝ) 1 1) 0 0 ∧
    generate_value opaqueParticle3 3 3 1 1 0 (DiagonalPattern (α := ℝ) 1 1) 0 0 ≤ 1 :=
  C1_value_bounds opaqueParticle3 3 3 1 1 0 (DiagonalPattern (α := ℝ) 1 1) 0 0
    rfl rfl (by norm_num) (by norm_num) (by norm_num) (by norm_num) le_rfl
    (by rw [ceil_div_three_one, max_scale_opaque3]; norm_num)
    (fun px py q hpx hpy hhit => by
      obtain ⟨ax, ay⟩ := q
      have hpc : particleCenterX opaqueParticle3 = 3 / 2 := by
        norm_num [particleCenterX, opaqueParticle3]
      have hpcy : particleCenterY opaqueParticle3 = 3 / 2 := by
        norm_num [particleCenterY, opaqueParticle3]
      have heq : boxHitDistSq opaqueParticle3 (ceil_div 3 1) (ceil_div 3 1) px py
          = ((ax : ℚ) - particleCenterX opaqueParticle3) ^ 2
            + ((ay : ℚ) - particleCenterY opaqueParticle3) ^ 2 := by
        unfold boxHitDistSq
        rw [hhit]
      rw [heq, hpc, hpcy]
      have hax : ((ax : ℚ)) - 3 / 2 ≠ 0 := by
        intro h
        have h2 : ((2 * ax : ℤ) : ℚ) = 3 := by push_cast; linarith
        have h3 : (2 * ax : ℤ) = 3 := by exact_mod_cast h2
        omega
      have hsq : 0 < ((ax : ℚ) - 3 / 2) ^ 2 :=
        lt_of_le_of_ne (sq_nonneg _) (Ne.symm (pow_ne_zero 2 hax))
      exact (add_pos_of_pos_of_nonneg hsq (sq_nonneg _)).ne')
    (fun r c h1 h2 h3 h4 => by
      have hr : r = 0 := by omega
      have hc : c = 0 := by omega
      subst hr
      subst hc
      constructor <;> norm_num [DiagonalPattern])

/-- A fully-transparent 2x2 particle. -/
def transparentParticle : Particle := ⟨2, 2, fun _ _ => 0⟩

/-- C1 counterexample: with a fully-transparent particle the hit search never
finds an opaque pixel, so every stamp value is 0 and `max_scale = 0`.  For a
1x1 grid over a 1x1 output, pixel (0, 0) then computes
`scale / max_scale = 0 / 0`, which is NaN in the source's IEEE arithmetic, and
that NaN flows into `value` unclamped and reaches the channel encoder —
refuting both the claimed clamping (the source has none) and the claim that no
NaN reaches the encoder.  The theorem exhibits the zero divisor and zero
dividend of that division. -/
theorem C1_counterexample :
    max_scale transparentParticle 1 1 = 0 ∧
    listMin (mask_scales (DiagonalPattern (α := ℝ) 1 1) 0
      (generate_box_scales transparentParticle 1 1 1 1)
      (max_scale transparentParticle 1 1) 1 1 0 0) = 0 := by
  have hsf : boxScaleFactor transparentParticle 1 1 1 1 = 0 := by
    norm_num [boxScaleFactor, boxDx, boxDy, transparentParticle]
  have he : box_scale transparentParticle 1 1 1 1 = 0 := by
    unfold box_scale
    rw [if_pos hsf]
  have hms : max_scale transparentParticle 1 1 = 0 := by
    have hL : max_scale transparentParticle 1 1
        = [box_scale transparentParticle 1 1 1 1].foldl max 0 := rfl
    rw [hL]
    show max 0 (box_scale transparentParticle 1 1 1 1) = 0
    rw [he]
    norm_num
  have hcd : ceil_div 1 1 = 1 := by
    unfold ceil_div
    norm_num
  refine ⟨hms, ?_⟩
  rw [mask_scales_delay_zero]
  have hflat : flat_scales (DiagonalPattern (α := ℝ) 1 1).row_ct
      (DiagonalPattern (α := ℝ) 1 1).column_ct
      (generate_box_scales transparentParticle 1 1 1 1) 1 1 0 0
      = [generate_box_scales transparentParticle 1 1 1 1 1 1] := rfl
  rw [hflat]
  have hbs : generate_box_scales transparentParticle 1 1 1 1 1 1
      = box_scale transparentParticle 1 1 1 1 := by
    show box_scale transparentParticle (ceil_div 1 1) (ceil_div 1 1) 1 1
      = box_scale transparentParticle 1 1 1 1
    rw [hcd]
  rw [show listMin [generate_box_scales transparentParticle 1 1 1 1 1 1]
      = generate_box_scales transparentParticle 1 1 1 1 1 1 from rfl, hbs, he]
